import Mathlib

/-!
# Verification of the chiaroscuro paint-mixture matching engine

Shallow embedding of the color-mixture matching core of the `chiaroscuro`
repository (TypeScript) and proofs about the claims of its specification.

Sources embedded:
* `src/utils/colorConversion.ts` — opacity / tinting-strength numeric scales,
  chroma, ΔE dispatch.
* `src/utils/colorUtils.ts` — `findOptimalPaintMixture` with its single-,
  binary- and ternary passes, mixed-color estimation with chroma dulling,
  `deltaEToPercentage`, `removeRedundantRecipes`.
* `src/context/PaintContext.tsx` — `findPaintMixtures`, the heuristic
  recipe builder with chromatic-black handling and its final ranking.
* `src/utils/imageAnalysis.ts` — `clusterColors`, k-means palette clustering.

Modelling conventions (used consistently below):
* Numbers are embedded as exact rationals (`ℚ`); the JavaScript source
  computes with IEEE doubles, which this development idealizes as exact
  real/rational arithmetic (the specification describes the algorithms in
  real arithmetic).  Floating-point `for` ladders (`0.1..0.9` step `0.1`;
  `0.7..0.98` step `0.02`) are embedded as the rational value lists with the
  iteration counts the double loop actually performs (9 resp. 14 values —
  accumulated rounding stops the second ladder at 0.96).
* `calculateDeltaE` delegates to `differenceCiede2000` of the external
  `culori` package, which is not part of this repository.  Following the
  specification ("perceptual distance (ΔE)", with both a Euclidean and a
  CIEDE2000-family fidelity level exposed), the metric is abstracted as an
  explicit function parameter `dE : LAB → LAB → ℚ`; structural theorems are
  proved for every such metric.  Concrete evaluations instantiate it with
  `dEuclid1`, the coordinate-difference metric that agrees with the
  Euclidean LAB ΔE of the specification on every pair of colors that differ
  in at most one LAB coordinate (all concrete colors below are of this form).
* `Math.atan2` / `Math.PI` (hue angles) are likewise transcendental library
  functions; they are abstracted as an oracle parameter.  Every concrete
  evaluation below takes a code path on which the oracle is never consulted.
* `Math.sqrt` appears in the source only (a) in distance computations whose
  results are exclusively *compared* (against constant thresholds or against
  each other) — these are embedded by carrying the squared distance and
  comparing with the provably equivalent squared forms (`Real.sqrt` is
  monotone; see lemma `sqrt_cmp_iff` and `Score.leB_toReal` below) — and
  (b) in the chroma-dulling scaling, where the source multiplies `a`,`b` by
  `(√c·f)/√c = f` — see `scaleChroma` and lemma `sqrt_mul_div_sqrt`.
* `Array.prototype.sort` with a numeric comparator is stable (ECMAScript
  2019); a stable sort's output is the unique sorted permutation preserving
  the input order of comparator-ties, which is what `List.insertionSort`
  with the corresponding non-strict relation computes.
* Display-only fields (`estimatedHexColor`, `swatch`) are produced through
  the external `chroma-js` package and are not read by any algorithmic
  decision; they are omitted from the embedded records.
-/

namespace Chiaroscuro

/-- A CIE LAB color, `{L, a, b}` as in `ColorContext.tsx`. -/
structure LAB where
  L : ℚ
  a : ℚ
  b : ℚ
deriving DecidableEq, Repr

/-- Opacity class of a paint: `'O' | 'SO' | 'ST' | 'T'` (`PaintContext.tsx`). -/
inductive Opacity where
  | O | SO | ST | T
deriving DecidableEq, Repr

/-- Tinting strength class: `'High' | 'Medium' | 'Low'` (`PaintContext.tsx`). -/
inductive Tinting where
  | High | Medium | Low
deriving DecidableEq, Repr

/-- A paint catalog record (`Paint` in `PaintContext.tsx`).  Fields that are
purely display data (`swatch`, `munsell`, `binder`, `lightfastness`,
`series`) are not read by the matching algorithms and are omitted. -/
structure Paint where
  id : String
  brand : String
  name : String
  pigmentCodes : List String
  opacity : Opacity
  tintingStrength : Option Tinting
  lab : Option LAB
deriving DecidableEq, Repr

/-- ASCII lower-casing, as `String.prototype.toLowerCase` acts on the ASCII
paint names of the catalog. -/
def jsLower (s : String) : String :=
  String.mk (s.toList.map Char.toLower)

/-- `needle` occurs at the start of `hay` (helper for `jsIncl`). -/
def jsStarts : List Char → List Char → Bool
  | [], _ => true
  | _ :: _, [] => false
  | a :: as, b :: bs => a == b && jsStarts as bs

/-- `String.prototype.includes`: contiguous substring occurrence. -/
def jsIncl (hay needle : String) : Bool :=
  go needle.toList hay.toList
where
  go (n : List Char) : List Char → Bool
    | [] => n.isEmpty
    | c :: t => jsStarts n (c :: t) || go n t

/-- `Math.round`: round half toward positive infinity. -/
def jsRound (q : ℚ) : ℤ := ⌊q + 1/2⌋

/-- `opacityToNumeric` (`colorConversion.ts`): opaque 1.0, semi-opaque 0.75,
semi-transparent 0.5, transparent 0.25. -/
def opacityToNumeric : Opacity → ℚ
  | .O => 1
  | .SO => 3/4
  | .ST => 1/2
  | .T => 1/4

/-- `tintingStrengthToNumeric` (`colorConversion.ts`): High 2.0, Medium 1.0,
Low 0.5; an absent strength defaults to 1.0. -/
def tintingStrengthToNumeric : Option Tinting → ℚ
  | some .High => 2
  | some .Medium => 1
  | some .Low => 1/2
  | none => 1

/-- Squared Euclidean LAB distance.  The source computes
`Math.sqrt(ΔL²+Δa²+Δb²)` and only ever compares the value; comparisons are
performed here on the squares (equivalent by `sqrt_cmp_iff`). -/
def dist2 (x y : LAB) : ℚ :=
  (x.L - y.L) ^ 2 + (x.a - y.a) ^ 2 + (x.b - y.b) ^ 2

/-- The coordinate-difference metric used to instantiate the abstract ΔE
parameter in concrete evaluations.  On colors that differ in at most one LAB
coordinate it equals the Euclidean LAB ΔE `√(ΔL²+Δa²+Δb²)`; all concrete
colors used below are of that form. -/
def dEuclid1 (x y : LAB) : ℚ :=
  |x.L - y.L| + |x.a - y.a| + |x.b - y.b|

/-- Comparisons of square roots of nonnegative rationals reduce to
comparisons of the radicands: justification for carrying squared distances. -/
theorem sqrt_cmp_iff (x y : ℚ) (hy : (0:ℝ) ≤ (y:ℝ)) :
    Real.sqrt (x:ℝ) ≤ Real.sqrt (y:ℝ) ↔ (x:ℝ) ≤ (y:ℝ) :=
  Real.sqrt_le_sqrt_iff hy

/-- The chroma-dulling scaling of the source multiplies `a` and `b` by
`reducedChroma / chroma = (√c · f) / √c`, which equals `f` whenever the
squared chroma `c` is positive: justification for `scaleChroma`. -/
theorem sqrt_mul_div_sqrt (c f : ℝ) (hc : 0 < c) :
    Real.sqrt c * f / Real.sqrt c = f := by
  rw [mul_comm, mul_div_assoc, div_self (ne_of_gt (Real.sqrt_pos.mpr hc)), mul_one]

/-! ## colorUtils.ts — recipes and the three search passes -/

/-- One `{ paint, proportion }` entry of a recipe. -/
structure RecipeComponent where
  paint : Paint
  proportion : ℚ
deriving DecidableEq, Repr

/-- `MixingRecipe` as produced by `colorUtils.ts` (there
`estimatedLabColor` is always set and `matchPercentage` is
`deltaEToPercentage` of a ΔE value, hence rational here). -/
structure MixingRecipe where
  paints : List RecipeComponent
  matchPercentage : ℚ
  estimatedLabColor : LAB
deriving DecidableEq, Repr

/-- `deltaEToPercentage` (`colorUtils.ts:513`): `clamp₍₀,₁₀₀₎(100 − 5·ΔE)`. -/
def deltaEToPercentage (deltaE : ℚ) : ℚ :=
  max 0 (min 100 (100 - deltaE * 5))

/-- Order produced by the comparator `(a, b) => b.matchPercentage -
a.matchPercentage`: descending match percentage, ties kept stable. -/
def recGE (x y : MixingRecipe) : Prop :=
  y.matchPercentage ≤ x.matchPercentage

instance : DecidableRel recGE := fun x y =>
  inferInstanceAs (Decidable (y.matchPercentage ≤ x.matchPercentage))

instance : IsTotal MixingRecipe recGE :=
  ⟨fun x y => le_total y.matchPercentage x.matchPercentage⟩

instance : IsTrans MixingRecipe recGE :=
  ⟨fun _ _ _ h₁ h₂ => le_trans h₂ h₁⟩

/-- `recipes.sort((a, b) => b.matchPercentage - a.matchPercentage)`:
stable descending sort. -/
def sortRecipes (l : List MixingRecipe) : List MixingRecipe :=
  l.insertionSort recGE

/-- `findSinglePaintMatches` (`colorUtils.ts:120`): score every paint with a
LAB value directly against the target, sort descending, keep the top 10. -/
def findSinglePaintMatches (dE : LAB → LAB → ℚ) (target : LAB)
    (availablePaints : List Paint) : List MixingRecipe :=
  let found := availablePaints.filterMap fun paint =>
    match paint.lab with
    | none => none
    | some lab =>
      let deltaE := dE target lab
      some { paints := [⟨paint, 1⟩],
             matchPercentage := deltaEToPercentage deltaE,
             estimatedLabColor := lab }
  (sortRecipes found).take 10

/-- `adjustRatioForTintingStrength` (`colorUtils.ts:395`). -/
def adjustRatioForTintingStrength (ratio tintStrength1 tintStrength2 : ℚ) : ℚ :=
  max 0 (min 1 (ratio * (tintStrength1 / (tintStrength1 + tintStrength2)) * 2))

/-- The `a`,`b` rescaling at the end of `estimateMixedColor` /
`estimateTernaryMixedColor`: the source computes `chroma = √(a²+b²)`,
`reducedChroma = chroma * dullingFactor` and, when `chroma > 0`, multiplies
`a` and `b` by `reducedChroma / chroma`, which equals `dullingFactor`
(lemma `sqrt_mul_div_sqrt`); `chroma > 0 ↔ a²+b² > 0`. -/
def scaleChroma (lab : LAB) (dullingFactor : ℚ) : LAB :=
  if 0 < lab.a * lab.a + lab.b * lab.b then
    { lab with a := lab.a * dullingFactor, b := lab.b * dullingFactor }
  else lab

/-- The weighted LAB average of two colors (`colorUtils.ts:424`). -/
def mixLab2 (lab1 lab2 : LAB) (ratio : ℚ) : LAB :=
  { L := lab1.L * ratio + lab2.L * (1 - ratio),
    a := lab1.a * ratio + lab2.a * (1 - ratio),
    b := lab1.b * ratio + lab2.b * (1 - ratio) }

/-- The two-paint dulling factor (`colorUtils.ts:437`):
`1 − (ΔE/100)·0.3·(1 − min(op₁,op₂)·0.5)` — note the *minimum* of the two
opacity scores. -/
def binaryDullingFactor (dE : LAB → LAB → ℚ) (paint1 paint2 : Paint)
    (lab1 lab2 : LAB) : ℚ :=
  1 - dE lab1 lab2 / 100 * (3/10)
    * (1 - min (opacityToNumeric paint1.opacity) (opacityToNumeric paint2.opacity)
        * (1/2))

/-- `estimateMixedColor` (`colorUtils.ts:411`): weighted LAB average, then
chroma dulling. -/
def estimateMixedColor (dE : LAB → LAB → ℚ) (paint1 paint2 : Paint)
    (ratio : ℚ) : LAB :=
  match paint1.lab, paint2.lab with
  | some lab1, some lab2 =>
    scaleChroma (mixLab2 lab1 lab2 ratio) (binaryDullingFactor dE paint1 paint2 lab1 lab2)
  | _, _ => ⟨50, 0, 0⟩

/-- The weighted LAB average of three colors with already-normalized
ratios (`colorUtils.ts:474`). -/
def mixLab3 (lab1 lab2 lab3 : LAB) (r1 r2 r3 : ℚ) : LAB :=
  { L := lab1.L * r1 + lab2.L * r2 + lab3.L * r3,
    a := lab1.a * r1 + lab2.a * r2 + lab3.a * r3,
    b := lab1.b * r1 + lab2.b * r2 + lab3.b * r3 }

/-- The three-paint dulling factor (`colorUtils.ts:495`):
`1 − (maxPairwiseΔE/100)·0.4·(1 − avgOpacity·0.5)` — the *mean* of the three
opacity scores, and a larger base rate than the two-paint case. -/
def ternaryDullingFactor (dE : LAB → LAB → ℚ) (paint1 paint2 paint3 : Paint)
    (lab1 lab2 lab3 : LAB) : ℚ :=
  let maxDeltaE := max (dE lab1 lab2) (max (dE lab1 lab3) (dE lab2 lab3))
  let averageOpacity :=
    (opacityToNumeric paint1.opacity + opacityToNumeric paint2.opacity
      + opacityToNumeric paint3.opacity) / 3
  1 - maxDeltaE / 100 * (2/5) * (1 - averageOpacity * (1/2))

/-- `estimateTernaryMixedColor` (`colorUtils.ts:455`): ratios normalized to
sum 1, weighted LAB average, then chroma dulling. -/
def estimateTernaryMixedColor (dE : LAB → LAB → ℚ) (paint1 paint2 paint3 : Paint)
    (ratio1 ratio2 ratio3 : ℚ) : LAB :=
  match paint1.lab, paint2.lab, paint3.lab with
  | some lab1, some lab2, some lab3 =>
    let sum := ratio1 + ratio2 + ratio3
    scaleChroma (mixLab3 lab1 lab2 lab3 (ratio1 / sum) (ratio2 / sum) (ratio3 / sum))
      (ternaryDullingFactor dE paint1 paint2 paint3 lab1 lab2 lab3)
  | _, _, _ => ⟨50, 0, 0⟩

/-- Search budget (`MAX_ATTEMPTS`, `colorUtils.ts:71`). -/
def MAX_ATTEMPTS : Nat := 100000

/-- The binary mixing-ratio ladder `for (ratio = 0.1; ratio <= 0.9; ratio += 0.1)`
(9 iterations of the double loop). -/
def binaryRatios : List ℚ :=
  [1/10, 2/10, 3/10, 4/10, 5/10, 6/10, 7/10, 8/10, 9/10]

/-- The black-shading ladder `for (ratio = 0.7; ratio <= 0.98; ratio += 0.02)`
(14 iterations of the double loop; accumulated rounding stops it at 0.96). -/
def blackRatios : List ℚ :=
  [70/100, 72/100, 74/100, 76/100, 78/100, 80/100, 82/100,
   84/100, 86/100, 88/100, 90/100, 92/100, 94/100, 96/100]

/-- Build one two-paint recipe from an already tinting-adjusted ratio
(the push sites of `findBinaryMixes`). -/
def mkBinaryRecipe (dE : LAB → LAB → ℚ) (target : LAB)
    (paint1 paint2 : Paint) (adjustedRatio : ℚ) : MixingRecipe :=
  let mixedColor := estimateMixedColor dE paint1 paint2 adjustedRatio
  { paints := [⟨paint1, adjustedRatio⟩, ⟨paint2, 1 - adjustedRatio⟩],
    matchPercentage := deltaEToPercentage (dE target mixedColor),
    estimatedLabColor := mixedColor }

/-- Search state of the binary/ternary passes: accumulated recipes and the
`attempts` counter. -/
abbrev SearchState := List MixingRecipe × Nat

/-- Inner `j`-loop of `findBinaryMixes` (`colorUtils.ts:168`): pair `paint1`
with every later paint; the `attempts < MAX_ATTEMPTS` guard is re-checked at
each `j`, and each admitted pair evaluates the whole 9-ratio ladder. -/
def binaryPairLoop (dE : LAB → LAB → ℚ) (target : LAB) (paint1 : Paint) :
    List Paint → SearchState → SearchState
  | [], st => st
  | paint2 :: rest, (acc, attempts) =>
    if attempts < MAX_ATTEMPTS then
      match paint2.lab with
      | none => binaryPairLoop dE target paint1 rest (acc, attempts)
      | some _ =>
        let recs := binaryRatios.map fun ratio =>
          let adjustedRatio := adjustRatioForTintingStrength ratio
            (tintingStrengthToNumeric paint1.tintingStrength)
            (tintingStrengthToNumeric paint2.tintingStrength)
          mkBinaryRecipe dE target paint1 paint2 adjustedRatio
        binaryPairLoop dE target paint1 rest
          (acc ++ recs, attempts + binaryRatios.length)
    else (acc, attempts)

/-- White-tinting branch of `findBinaryMixes` (`colorUtils.ts:204`): mix
`paint1` with the first white paint over the 9-ratio ladder (not guarded by
the attempts budget). -/
def binaryWhiteStep (dE : LAB → LAB → ℚ) (target : LAB)
    (whitePaints : List Paint) (paint1 : Paint) (st : SearchState) :
    SearchState :=
  match whitePaints with
  | [] => st
  | whitePaint :: _ =>
    match whitePaint.lab with
    | none => st
    | some _ =>
      let recs := binaryRatios.map fun ratio =>
        let adjustedRatio := adjustRatioForTintingStrength ratio
          (tintingStrengthToNumeric paint1.tintingStrength)
          (tintingStrengthToNumeric whitePaint.tintingStrength)
        mkBinaryRecipe dE target paint1 whitePaint adjustedRatio
      (st.1 ++ recs, st.2 + binaryRatios.length)

/-- Black-shading branch of `findBinaryMixes` (`colorUtils.ts:233`): mix
`paint1` with the first black paint over the 14-ratio ladder, treating black
as always high tinting strength. -/
def binaryBlackStep (dE : LAB → LAB → ℚ) (target : LAB)
    (blackPaints : List Paint) (paint1 : Paint) (st : SearchState) :
    SearchState :=
  match blackPaints with
  | [] => st
  | blackPaint :: _ =>
    match blackPaint.lab with
    | none => st
    | some _ =>
      let recs := blackRatios.map fun ratio =>
        let adjustedRatio := adjustRatioForTintingStrength ratio
          (tintingStrengthToNumeric paint1.tintingStrength)
          (tintingStrengthToNumeric (some .High))
        mkBinaryRecipe dE target paint1 blackPaint adjustedRatio
      (st.1 ++ recs, st.2 + blackRatios.length)

/-- Outer `i`-loop of `findBinaryMixes` (`colorUtils.ts:164`): for each
`paint1` run the pair loop on the later paints, then the white and black
branches; a `paint1` without LAB is skipped entirely. -/
def binaryOuterLoop (dE : LAB → LAB → ℚ) (target : LAB)
    (whitePaints blackPaints : List Paint) :
    List Paint → SearchState → SearchState
  | [], st => st
  | paint1 :: rest, (acc, attempts) =>
    if attempts < MAX_ATTEMPTS then
      match paint1.lab with
      | none => binaryOuterLoop dE target whitePaints blackPaints rest (acc, attempts)
      | some _ =>
        let st1 := binaryPairLoop dE target paint1 rest (acc, attempts)
        let st2 := binaryWhiteStep dE target whitePaints paint1 st1
        let st3 := binaryBlackStep dE target blackPaints paint1 st2
        binaryOuterLoop dE target whitePaints blackPaints rest st3
    else (acc, attempts)

/-- `findBinaryMixes` (`colorUtils.ts:146`): all two-paint candidates,
sorted descending, top 20. -/
def findBinaryMixes (dE : LAB → LAB → ℚ) (target : LAB)
    (availablePaints : List Paint) : List MixingRecipe :=
  let whitePaints := availablePaints.filter fun p =>
    p.pigmentCodes.contains "PW6" || jsIncl (jsLower p.name) "white"
  let blackPaints := availablePaints.filter fun p =>
    p.pigmentCodes.contains "PBk9" || p.pigmentCodes.contains "PBk11"
      || jsIncl (jsLower p.name) "black"
  let st := binaryOuterLoop dE target whitePaints blackPaints availablePaints ([], 0)
  (sortRecipes st.1).take 20

/-- Strategic ratio triples of the ternary pass (`colorUtils.ts:308`). -/
def ternaryRatioSets : List (ℚ × ℚ × ℚ) :=
  [(7/10, 2/10, 1/10), (6/10, 3/10, 1/10), (5/10, 3/10, 2/10),
   (4/10, 4/10, 2/10), (33/100, 33/100, 34/100)]

/-- Ratio triples of the ternary white-tinting branch (`colorUtils.ts:358`). -/
def ternaryWhiteRatioSets : List (ℚ × ℚ × ℚ) :=
  [(7/10, 2/10, 1/10), (5/10, 4/10, 1/10), (4/10, 3/10, 3/10)]

/-- One three-paint recipe with tinting-strength-normalized ratios (the push
site of the main triple loop, `colorUtils.ts:316`). -/
def mkTernaryRecipe (dE : LAB → LAB → ℚ) (target : LAB)
    (paint1 paint2 paint3 : Paint) (rs : ℚ × ℚ × ℚ) : MixingRecipe :=
  let tintRatio1 := tintingStrengthToNumeric paint1.tintingStrength
  let tintRatio2 := tintingStrengthToNumeric paint2.tintingStrength
  let tintRatio3 := tintingStrengthToNumeric paint3.tintingStrength
  let totalTinting := rs.1 * tintRatio1 + rs.2.1 * tintRatio2 + rs.2.2 * tintRatio3
  let adjustedR1 := rs.1 * tintRatio1 / totalTinting
  let adjustedR2 := rs.2.1 * tintRatio2 / totalTinting
  let adjustedR3 := rs.2.2 * tintRatio3 / totalTinting
  let mixedColor := estimateTernaryMixedColor dE paint1 paint2 paint3
    adjustedR1 adjustedR2 adjustedR3
  { paints := [⟨paint1, adjustedR1⟩, ⟨paint2, adjustedR2⟩, ⟨paint3, adjustedR3⟩],
    matchPercentage := deltaEToPercentage (dE target mixedColor),
    estimatedLabColor := mixedColor }

/-- One three-paint recipe of the white-tinting branch (`colorUtils.ts:364`):
raw ratios, no tinting normalization. -/
def mkTernaryWhiteRecipe (dE : LAB → LAB → ℚ) (target : LAB)
    (paint1 paint2 whitePaint : Paint) (rs : ℚ × ℚ × ℚ) : MixingRecipe :=
  let mixedColor := estimateTernaryMixedColor dE paint1 paint2 whitePaint
    rs.1 rs.2.1 rs.2.2
  { paints := [⟨paint1, rs.1⟩, ⟨paint2, rs.2.1⟩, ⟨whitePaint, rs.2.2⟩],
    matchPercentage := deltaEToPercentage (dE target mixedColor),
    estimatedLabColor := mixedColor }

/-- Innermost `k`-loop of the ternary pass (`colorUtils.ts:302`): guard per
`k`, then all 5 ratio sets for the admitted triple. -/
def ternaryKLoop (dE : LAB → LAB → ℚ) (target : LAB) (paint1 paint2 : Paint) :
    List Paint → SearchState → SearchState
  | [], st => st
  | paint3 :: rest, (acc, attempts) =>
    if attempts < MAX_ATTEMPTS then
      match paint3.lab with
      | none => ternaryKLoop dE target paint1 paint2 rest (acc, attempts)
      | some _ =>
        let recs := ternaryRatioSets.map
          (mkTernaryRecipe dE target paint1 paint2 paint3)
        ternaryKLoop dE target paint1 paint2 rest
          (acc ++ recs, attempts + ternaryRatioSets.length)
    else (acc, attempts)

/-- Middle `j`-loop of the ternary pass (`colorUtils.ts:298`). -/
def ternaryJLoop (dE : LAB → LAB → ℚ) (target : LAB) (paint1 : Paint) :
    List Paint → SearchState → SearchState
  | [], st => st
  | paint2 :: rest, (acc, attempts) =>
    if attempts < MAX_ATTEMPTS then
      match paint2.lab with
      | none => ternaryJLoop dE target paint1 rest (acc, attempts)
      | some _ =>
        let st1 := ternaryKLoop dE target paint1 paint2 rest (acc, attempts)
        ternaryJLoop dE target paint1 rest st1
    else (acc, attempts)

/-- White-tinting branch of the ternary pass (`colorUtils.ts:354`):
`for (j = 0; j < len && j !== i && attempts < MAX; j++)` — the `j !== i`
conjunct *terminates* the loop at the current outer index, so only the
paints strictly before `paint1` in `closestPaints` are visited; they are
passed here as `beforePaint1`. -/
def ternaryWhiteLoop (dE : LAB → LAB → ℚ) (target : LAB)
    (whitePaint paint1 : Paint) :
    List Paint → SearchState → SearchState
  | [], st => st
  | paint2 :: rest, (acc, attempts) =>
    if attempts < MAX_ATTEMPTS then
      match paint2.lab with
      | none => ternaryWhiteLoop dE target whitePaint paint1 rest (acc, attempts)
      | some _ =>
        let recs := ternaryWhiteRatioSets.map
          (mkTernaryWhiteRecipe dE target paint1 paint2 whitePaint)
        ternaryWhiteLoop dE target whitePaint paint1 rest
          (acc ++ recs, attempts + ternaryWhiteRatioSets.length)
    else (acc, attempts)

/-- Outer `i`-loop of the ternary pass (`colorUtils.ts:294`): the triple
loops over the paints after `paint1`, then (if a white paint with LAB
exists) the white branch over the paints before `paint1`. -/
def ternaryOuterLoop (dE : LAB → LAB → ℚ) (target : LAB)
    (whitePaint? : Option Paint) (beforePaint1 : List Paint) :
    List Paint → SearchState → SearchState
  | [], st => st
  | paint1 :: rest, (acc, attempts) =>
    if attempts < MAX_ATTEMPTS then
      match paint1.lab with
      | none =>
        ternaryOuterLoop dE target whitePaint? (beforePaint1 ++ [paint1]) rest
          (acc, attempts)
      | some _ =>
        let st1 := ternaryJLoop dE target paint1 rest (acc, attempts)
        let st2 :=
          match whitePaint? with
          | none => st1
          | some whitePaint =>
            match whitePaint.lab with
            | none => st1
            | some _ => ternaryWhiteLoop dE target whitePaint paint1 beforePaint1 st1
        ternaryOuterLoop dE target whitePaint? (beforePaint1 ++ [paint1]) rest st2
    else (acc, attempts)

/-- Order of `closestPaints` (`colorUtils.ts:285`): ascending ΔE to the
target.  The source comparator returns `deltaA - deltaB` (and 0 on a
missing LAB, which cannot occur on the pre-filtered list). -/
def paintCloser (dE : LAB → LAB → ℚ) (target : LAB) (x y : Paint) : Prop :=
  dE target (x.lab.getD ⟨0, 0, 0⟩) ≤ dE target (y.lab.getD ⟨0, 0, 0⟩)

instance (dE : LAB → LAB → ℚ) (target : LAB) :
    DecidableRel (paintCloser dE target) := fun _ _ =>
  inferInstanceAs (Decidable (_ ≤ _))

instance (dE : LAB → LAB → ℚ) (target : LAB) :
    IsTotal Paint (paintCloser dE target) := ⟨fun _ _ => le_total _ _⟩

instance (dE : LAB → LAB → ℚ) (target : LAB) :
    IsTrans Paint (paintCloser dE target) := ⟨fun _ _ _ => le_trans⟩

/-- `findTernaryMixes` (`colorUtils.ts:271`): shortlist the 10 paints
closest to the target, run the strategic triple search and the white
branch, sort descending, top 15. -/
def findTernaryMixes (dE : LAB → LAB → ℚ) (target : LAB)
    (availablePaints : List Paint) : List MixingRecipe :=
  let whitePaint? := availablePaints.find? fun p =>
    p.pigmentCodes.contains "PW6" || jsIncl (jsLower p.name) "white"
  let closestPaints :=
    ((availablePaints.filter fun p => p.lab.isSome).insertionSort
      (paintCloser dE target)).take 10
  let st := ternaryOuterLoop dE target whitePaint? [] closestPaints ([], 0)
  (sortRecipes st.1).take 15

/-- The paint-identity multiset of a recipe (the source compares the
`.sort()`ed id arrays of equal length element-wise, which is exactly
multiset equality). -/
def idMultiset (r : MixingRecipe) : Multiset String :=
  ↑(r.paints.map fun c => c.paint.id)

/-- One step of the `removeRedundantRecipes` loop: keep `recipe` only if no
already-kept recipe has the same number of paints and the same sorted
paint-id list. -/
def dedupStep (uniqueRecipes : List MixingRecipe) (recipe : MixingRecipe) :
    List MixingRecipe :=
  let isDuplicate := uniqueRecipes.any fun existing =>
    existing.paints.length == recipe.paints.length
      && decide (idMultiset existing = idMultiset recipe)
  if isDuplicate then uniqueRecipes else uniqueRecipes ++ [recipe]

/-- `removeRedundantRecipes` (`colorUtils.ts:523`). -/
def removeRedundantRecipes (recipes : List MixingRecipe) : List MixingRecipe :=
  recipes.foldl dedupStep []

/-- `findOptimalPaintMixture` (`colorUtils.ts:77`): null/empty guard,
single-paint pass with near-perfect short-circuit at > 98, binary pass,
ternary pass gated on `recipes[0].matchPercentage < 90`, then sort,
deduplicate and truncate to 5. -/
def findOptimalPaintMixture (dE : LAB → LAB → ℚ)
    (targetLabColor : Option LAB) (availablePaints : Option (List Paint))
    (maxComponents : Nat := 3) : List MixingRecipe :=
  match targetLabColor, availablePaints with
  | some target, some paints =>
    if paints.length = 0 then []
    else
      let singles := findSinglePaintMatches dE target paints
      let shortCircuit : Bool :=
        match singles.head? with
        | some r0 => decide (98 < r0.matchPercentage)
        | none => false
      if shortCircuit then singles.take 5
      else
        let recipes1 :=
          if 2 ≤ maxComponents then singles ++ findBinaryMixes dE target paints
          else singles
        let ternaryGate : Bool :=
          match recipes1.head? with
          | none => true
          | some r0 => decide (r0.matchPercentage < 90)
        let recipes2 :=
          if 3 ≤ maxComponents ∧ ternaryGate = true then
            recipes1 ++ findTernaryMixes dE target paints
          else recipes1
        (removeRedundantRecipes (sortRecipes recipes2)).take 5
  | _, _ => []

/-! ## PaintContext.tsx — `findPaintMixtures`

The heuristic recipe builder.  Scores there are `clamp₍₀,₁₀₀₎(100 − 2·dist)`
with `dist` the Euclidean LAB distance (`Math.sqrt`), or directly assigned
constants; they are embedded as the exact `Score` type below, which carries
either the squared distance or the constant, together with a decidable
comparison `Score.leB` proved equivalent to the real-number comparison of
the represented values (`Score.leB_toReal`).

`Math.atan2` and `Math.PI` (hue-angle computations) are transcendental
library functions modelled by the oracle parameter `MathOracle`; the
returned recipes of the concrete evaluations below never depend on it.

Omitted faithfully-irrelevant parts: `console.log` calls, the React state
updates (`setRecipes`, `setIsLoading`), the `estimatedHexColor` display
field (computed by the external `chroma-js` package), and the `try/catch`
wrapper (the embedded body is total, so the catch branch is unreachable).
-/

/-- A `findPaintMixtures` match percentage: either
`clamp₍₀,₁₀₀₎(100 − 2·√d2)` for a squared Euclidean LAB distance `d2`, or a
directly assigned constant percentage. -/
inductive Score where
  | dist (d2 : ℚ)
  | const (v : ℚ)
deriving DecidableEq, Repr

/-- The real value represented by a `Score` (`PaintContext.tsx:343` :
`Math.max(0, Math.min(100, 100 - dist * 2))`). -/
noncomputable def Score.toReal : Score → ℝ
  | .dist d2 => max 0 (min 100 (100 - 2 * Real.sqrt (d2 : ℝ)))
  | .const v => (v : ℝ)

/-- Decidable comparison of `Score` values, working on the squared
distances (see `Score.leB_toReal`). -/
def Score.leB : Score → Score → Bool
  | .dist x, .dist y => decide (min (max y 0) 2500 ≤ min (max x 0) 2500)
  | .dist x, .const v =>
    if 100 ≤ v then true
    else if v < 0 then false
    else decide ((100 - v) ^ 2 ≤ 4 * max x 0)
  | .const v, .dist y =>
    if v ≤ 0 then true
    else if 100 < v then false
    else decide (4 * max y 0 ≤ (100 - v) ^ 2)
  | .const v, .const w => decide (v ≤ w)

/-- Comparison of scores; `Score.le_iff_toReal` below proves it coincides
with comparison of the represented real values. -/
def Score.le (s t : Score) : Prop := Score.leB s t = true

instance : DecidableRel Score.le := fun _ _ =>
  inferInstanceAs (Decidable (_ = true))

/-- Strict comparison of scores (`Score.lt_iff_toReal`). -/
def Score.lt (s t : Score) : Prop := Score.leB t s = false

/-- The comparator result `toReal s > toReal t` as a Boolean. -/
def Score.gtB (s : Score) (t : Score) : Bool := ! Score.leB s t

/-- A recipe as produced by `findPaintMixtures` (`MixingRecipe` of
`PaintContext.tsx` with its optional fields; the display-only
`estimatedHexColor` omitted). -/
structure PCRecipe where
  paints : List RecipeComponent
  score : Score
  estimatedLab : Option LAB
  description : Option String
deriving DecidableEq, Repr

/-- Oracle for the transcendental `Math.atan2` / `Math.PI` used in
hue-angle heuristics.  Modelled from the spec: hue angles serve only to
pick complementary partners and to skip nearly-equal-hue pairs; the
JavaScript values are implementation-approximated doubles of the
corresponding real functions, which have no exact rational embedding. -/
structure MathOracle where
  atan2 : ℚ → ℚ → ℚ
  pi : ℚ

/-- A trivial oracle instantiation for concrete evaluations whose code path
never consults the oracle. -/
def oracle0 : MathOracle := ⟨fun _ _ => 0, 3⟩

/-- JavaScript `%` on the nonnegative operands appearing in hue arithmetic. -/
def jsMod (q m : ℚ) : ℚ := q - m * ⌊q / m⌋

/-- The fallback paint of `findPaintMixtures` (`PaintContext.tsx:262`). -/
def fallbackPaint : Paint :=
  { id := "error-fallback", brand := "Error Recovery",
    name := "Error Fallback White", pigmentCodes := ["PW6"], opacity := .O,
    tintingStrength := some .High, lab := some ⟨95, 0, 2⟩ }

/-- The fallback recipe (`PaintContext.tsx:259`): match percentage 50, no
estimated LAB color. -/
def fallbackRecipe : PCRecipe :=
  { paints := [⟨fallbackPaint, 1⟩], score := .const 50,
    estimatedLab := none, description := none }

/-- Color temperature (`PaintContext.tsx:232`). -/
inductive Temperature where
  | warm | cool | neutral
deriving DecidableEq, Repr

/-- `getColorTemperature` (`PaintContext.tsx:232`). -/
def getColorTemperature (lab : LAB) : Temperature :=
  let warmth := lab.a + lab.b
  let coolness := -lab.a - lab.b
  if warmth > coolness + 15 then .warm
  else if coolness > warmth + 15 then .cool
  else .neutral

/-- Result of `findChromaticBlackPairs` (`PaintContext.tsx:168`). -/
structure ChromaticBlacks where
  warm : List Paint
  cool : List Paint
  neutral : List Paint
deriving DecidableEq, Repr

/-- `findChromaticBlackPairs` (`PaintContext.tsx:168`): name/pigment lookup
of the traditional chromatic-black partner pigments. -/
def findChromaticBlackPairs (availablePaints : List Paint) : ChromaticBlacks :=
  let burntUmber := availablePaints.find? fun p =>
    jsIncl (jsLower p.name) "burnt umber"
      || (p.pigmentCodes.contains "PBr7" && jsIncl (jsLower p.name) "umber")
  let burntSienna := availablePaints.find? fun p =>
    jsIncl (jsLower p.name) "burnt sienna"
      || (p.pigmentCodes.contains "PBr7" && jsIncl (jsLower p.name) "sienna")
  let ultramarine := availablePaints.find? fun p =>
    jsIncl (jsLower p.name) "ultramarine" && p.pigmentCodes.contains "PB29"
  let phthaloBlue := availablePaints.find? fun p =>
    (jsIncl (jsLower p.name) "phthalo blue"
        || jsIncl (jsLower p.name) "phthalocyanine blue")
      && p.pigmentCodes.contains "PB15:3"
  let phthaloGreen := availablePaints.find? fun p =>
    (jsIncl (jsLower p.name) "phthalo green"
        || jsIncl (jsLower p.name) "phthalocyanine green")
      && (p.pigmentCodes.contains "PG7" || p.pigmentCodes.contains "PG36")
  let alizarinCrimson := availablePaints.find? fun p =>
    jsIncl (jsLower p.name) "alizarin"
      || jsIncl (jsLower p.name) "crimson permanent"
      || p.pigmentCodes.contains "PR83" || p.pigmentCodes.contains "PR177"
  let warmBlacks :=
    match burntUmber, ultramarine with
    | some bu, some ul => [bu, ul]
    | _, _ =>
      match burntSienna, ultramarine with
      | some bs, some ul => [bs, ul]
      | _, _ => []
  let coolBlacks :=
    match phthaloBlue, alizarinCrimson with
    | some pb, some ac => [pb, ac]
    | _, _ =>
      match ultramarine, alizarinCrimson with
      | some ul, some ac => [ul, ac]
      | _, _ => []
  let neutralBlacks :=
    match phthaloGreen, alizarinCrimson with
    | some pg, some ac => [pg, ac]
    | _, _ => []
  ⟨warmBlacks, coolBlacks, neutralBlacks⟩

/-- `findComplementaryPaints` (`PaintContext.tsx:136`): paints of the same
brand sorted by hue-angle distance to the complementary hue, top 3.  (The
source also computes an unused `complementaryRadians` local.) -/
def findComplementaryPaints (M : MathOracle) (paint : Paint)
    (availablePaints : List Paint) : List Paint :=
  match paint.lab with
  | none => []
  | some plab =>
    let hueAngle := M.atan2 plab.b plab.a * (180 / M.pi)
    let complementaryHue := jsMod (hueAngle + 180) 360
    let cands := availablePaints.filter fun p =>
      p.lab.isSome && p.id != paint.id && p.brand == paint.brand
    let withDiff := cands.map fun p =>
      let plab' := p.lab.getD ⟨0, 0, 0⟩
      let pHueAngle := M.atan2 plab'.b plab'.a * (180 / M.pi)
      let d0 := |pHueAngle - complementaryHue|
      let hueDiff := if d0 > 180 then 360 - d0 else d0
      (p, hueDiff)
    ((withDiff.insertionSort fun x y => x.2 ≤ y.2).take 3).map fun x => x.1

instance : DecidableRel (fun x y : Paint × ℚ => x.2 ≤ y.2) := fun _ _ =>
  inferInstanceAs (Decidable (_ ≤ _))

/-- Order of `sortedPaints` (`PaintContext.tsx:304`): ascending Euclidean
distance to the target (squared-distance comparison). -/
def pcCloser (target : LAB) (x y : Paint) : Prop :=
  dist2 (x.lab.getD ⟨0, 0, 0⟩) target ≤ dist2 (y.lab.getD ⟨0, 0, 0⟩) target

instance (target : LAB) : DecidableRel (pcCloser target) := fun _ _ =>
  inferInstanceAs (Decidable (_ ≤ _))

/-- Order of `closestByValue` (`PaintContext.tsx:450`): ascending `|ΔL|`. -/
def byValue (target : LAB) (x y : Paint) : Prop :=
  |(x.lab.getD ⟨0, 0, 0⟩).L - target.L| ≤ |(y.lab.getD ⟨0, 0, 0⟩).L - target.L|

instance (target : LAB) : DecidableRel (byValue target) := fun _ _ =>
  inferInstanceAs (Decidable (_ ≤ _))

/-- Order of `closestByHue` (`PaintContext.tsx:454`): ascending `a`,`b`
distance (squared-distance comparison). -/
def byHue (target : LAB) (x y : Paint) : Prop :=
  ((x.lab.getD ⟨0, 0, 0⟩).a - target.a) ^ 2 + ((x.lab.getD ⟨0, 0, 0⟩).b - target.b) ^ 2
    ≤ ((y.lab.getD ⟨0, 0, 0⟩).a - target.a) ^ 2 + ((y.lab.getD ⟨0, 0, 0⟩).b - target.b) ^ 2

instance (target : LAB) : DecidableRel (byHue target) := fun _ _ =>
  inferInstanceAs (Decidable (_ ≤ _))

/-- Clamp of the value-balancing ideal ratio (`PaintContext.tsx:504`). -/
def clamp19 (q : ℚ) : ℚ := min (9/10) (max (1/10) q)

/-- The dark-color chromatic-black white ratios (`PaintContext.tsx:407`). -/
def pcWhiteRatios : List ℚ := [1/10, 2/10, 3/10]

/-- The harmonious-pair mixing ratios (`PaintContext.tsx:488`). -/
def pcPairRatios : List ℚ := [2/10, 35/100, 5/10, 65/100, 8/10]

/-- The complement-blend ratios (`PaintContext.tsx:558`). -/
def pcComplementRatios : List ℚ := [85/100, 9/10, 95/100]

/-- The single-paint recipes of `findPaintMixtures` (`PaintContext.tsx:333`):
the up-to-3 closest paints, kept when scoring above 50. -/
def pcSingleRecipes (target : LAB) (sortedPaints : List Paint) : List PCRecipe :=
  (sortedPaints.take 3).filterMap fun paint =>
    let d2 := dist2 (paint.lab.getD ⟨0, 0, 0⟩) target
    let matchPercentage := Score.dist d2
    if matchPercentage.gtB (.const 50) then
      some { paints := [⟨paint, 1⟩], score := matchPercentage,
             estimatedLab := paint.lab, description := none }
    else none

/-- Chromatic-black selection for dark targets (`PaintContext.tsx:374`). -/
def pickBlackPair (targetTemperature : Temperature)
    (chromaticBlacks : ChromaticBlacks) : List Paint :=
  if targetTemperature = .warm ∧ 2 ≤ chromaticBlacks.warm.length then
    chromaticBlacks.warm
  else if targetTemperature = .cool ∧ 2 ≤ chromaticBlacks.cool.length then
    chromaticBlacks.cool
  else if 2 ≤ chromaticBlacks.neutral.length then chromaticBlacks.neutral
  else if 2 ≤ chromaticBlacks.warm.length then chromaticBlacks.warm
  else if 2 ≤ chromaticBlacks.cool.length then chromaticBlacks.cool
  else []

/-- Branch A of the per-brand loop (`PaintContext.tsx:371`): for dark
targets, blend the selected chromatic-black pair (50/50) with the brand's
white in small increments, keeping matches above 60. -/
def pcDarkRecipes (target : LAB) (targetTemperature : Temperature)
    (chromaticBlacks : ChromaticBlacks) (brandPaints : List Paint) :
    List PCRecipe :=
  let blackPair := pickBlackPair targetTemperature chromaticBlacks
  if hlen : blackPair.length = 2 then
    match hw : brandPaints.find? fun p => jsIncl (jsLower p.name) "white" with
    | none => []
    | some whitePaint =>
      let bp0 := blackPair[0]
      let bp1 := blackPair[1]
      let lab0 := bp0.lab.getD ⟨0, 0, 0⟩
      let lab1 := bp1.lab.getD ⟨0, 0, 0⟩
      let wlab := whitePaint.lab.getD ⟨0, 0, 0⟩
      let mixedBlackLab : LAB :=
        ⟨(lab0.L + lab1.L) / 2, (lab0.a + lab1.a) / 2, (lab0.b + lab1.b) / 2⟩
      pcWhiteRatios.filterMap fun whiteRatio =>
        let blackRatio := 1 - whiteRatio
        let mixedLab : LAB :=
          ⟨mixedBlackLab.L * blackRatio + wlab.L * whiteRatio,
           mixedBlackLab.a * blackRatio + wlab.a * whiteRatio,
           mixedBlackLab.b * blackRatio + wlab.b * whiteRatio⟩
        let matchPercentage := Score.dist (dist2 mixedLab target)
        if matchPercentage.gtB (.const 60) then
          some { paints := [⟨bp0, blackRatio * (1/2)⟩, ⟨bp1, blackRatio * (1/2)⟩,
                            ⟨whitePaint, whiteRatio⟩],
                 score := matchPercentage, estimatedLab := some mixedLab,
                 description := none }
        else none
  else []

/-- The lightness-biased ratio adjustment of branch B
(`PaintContext.tsx:490`): when the pair spans more than 20 `L` units and
the target lies between, bias the ratio toward the target lightness,
clamped to [0.1, 0.9]. -/
def pcAdjustRatio (target lab1 lab2 : LAB) (ratio : ℚ) : ℚ :=
  if 20 < |lab1.L - lab2.L| then
    let lighterIs1 := lab2.L < lab1.L
    let lighterL := if lighterIs1 then lab1.L else lab2.L
    let darkerL := if lighterIs1 then lab2.L else lab1.L
    if darkerL < target.L ∧ target.L < lighterL then
      let idealRatio := (target.L - darkerL) / (lighterL - darkerL)
      if lighterIs1 then clamp19 idealRatio else clamp19 (1 - idealRatio)
    else ratio
  else ratio

/-- One candidate pair of branch B (`PaintContext.tsx:474`): skip
nearly-equal hues, bias the ratio toward the target lightness when the pair
spans more than 20 `L` units, keep matches above 70. -/
def pcPairRecipes (M : MathOracle) (target : LAB) (paint1 paint2 : Paint) :
    List PCRecipe :=
  let lab1 := paint1.lab.getD ⟨0, 0, 0⟩
  let lab2 := paint2.lab.getD ⟨0, 0, 0⟩
  let hue1 := M.atan2 lab1.b lab1.a
  let hue2 := M.atan2 lab2.b lab2.a
  let hueDiff := |hue1 - hue2|
  if hueDiff < 2/10 then []
  else
    pcPairRatios.filterMap fun ratio =>
      let adjustedRatio := pcAdjustRatio target lab1 lab2 ratio
      let inversedAdjustedRatio := 1 - adjustedRatio
      let mixedLab : LAB :=
        ⟨lab1.L * adjustedRatio + lab2.L * inversedAdjustedRatio,
         lab1.a * adjustedRatio + lab2.a * inversedAdjustedRatio,
         lab1.b * adjustedRatio + lab2.b * inversedAdjustedRatio⟩
      let matchPercentage := Score.dist (dist2 mixedLab target)
      if matchPercentage.gtB (.const 70) then
        some { paints := [⟨paint1, adjustedRatio⟩, ⟨paint2, inversedAdjustedRatio⟩],
               score := matchPercentage, estimatedLab := some mixedLab,
               description := none }
      else none

/-- The `i < j` pair loop of branch B over the candidate paints. -/
def pcPairLoop (M : MathOracle) (target : LAB) : List Paint → List PCRecipe
  | [] => []
  | paint1 :: rest =>
    (rest.map fun paint2 => pcPairRecipes M target paint1 paint2).flatten
      ++ pcPairLoop M target rest

/-- Branch C (`PaintContext.tsx:550`): blend the brand's first paint with
its best complementary partner in small fractions, keeping matches above
65. -/
def pcComplementRecipes (M : MathOracle) (target : LAB)
    (brandPaints : List Paint) : List PCRecipe :=
  match brandPaints.head? with
  | none => []
  | some topPaint =>
    match findComplementaryPaints M topPaint brandPaints with
    | [] => []
    | complement :: _ =>
      let tlab := topPaint.lab.getD ⟨0, 0, 0⟩
      let clab := complement.lab.getD ⟨0, 0, 0⟩
      pcComplementRatios.filterMap fun ratio =>
        let complementRatio := 1 - ratio
        let mixedLab : LAB :=
          ⟨tlab.L * ratio + clab.L * complementRatio,
           tlab.a * ratio + clab.a * complementRatio,
           tlab.b * ratio + clab.b * complementRatio⟩
        let matchPercentage := Score.dist (dist2 mixedLab target)
        if matchPercentage.gtB (.const 65) then
          some { paints := [⟨topPaint, ratio⟩, ⟨complement, complementRatio⟩],
                 score := matchPercentage, estimatedLab := some mixedLab,
                 description := none }
        else none

/-- JavaScript `Set` insertion-order deduplication of the candidate paints
(`PaintContext.tsx:467`). -/
def insertUnique (l : List Paint) : List Paint :=
  l.foldl (fun acc p => if p ∈ acc then acc else acc ++ [p]) []

/-- One brand's contribution (`PaintContext.tsx:367`): skipped entirely for
brands with fewer than two paints, otherwise branch A (dark targets), the
harmonious pairs of branch B, and the complement blend of branch C. -/
def pcBrandRecipes (M : MathOracle) (target : LAB)
    (targetTemperature : Temperature) (chromaticBlacks : ChromaticBlacks)
    (isDarkColor : Bool) (brandPaints : List Paint) : List PCRecipe :=
  if brandPaints.length < 2 then []
  else
    let darkRecipes :=
      if isDarkColor then
        pcDarkRecipes target targetTemperature chromaticBlacks brandPaints
      else []
    let closestByValue := (brandPaints.insertionSort (byValue target)).take 5
    let closestByHue := (brandPaints.insertionSort (byHue target)).take 5
    let candidatePaints := insertUnique (closestByValue ++ closestByHue)
    darkRecipes ++ pcPairLoop M target candidatePaints
      ++ pcComplementRecipes M target brandPaints

/-- Brand names in first-occurrence order (the key order of the
`paintsByBrand` object, `PaintContext.tsx:357`). -/
def brandOrder (ps : List Paint) : List String :=
  ps.foldl (fun acc p => if p.brand ∈ acc then acc else acc ++ [p.brand]) []

/-- Descending-score order of the recipe sort (`PaintContext.tsx:599`). -/
def pcGE (x y : PCRecipe) : Prop := Score.le y.score x.score

/-- The dedup key of a recipe (`PaintContext.tsx:607`): the source joins the
sorted `"id-round(proportion*10)"` strings and compares keys for equality
only, which is exactly equality of the corresponding string multisets. -/
def pcKey (r : PCRecipe) : Multiset String :=
  ↑(r.paints.map fun c =>
    c.paint.id ++ "-" ++ toString (jsRound (c.proportion * 10)))

/-- The dedup-and-cap loop (`PaintContext.tsx:605`): keep the first recipe
of each key, stopping after 5. -/
def pcDedup : List PCRecipe → List (Multiset String) → List PCRecipe →
    List PCRecipe
  | [], _, acc => acc
  | r :: t, seen, acc =>
    if pcKey r ∈ seen then pcDedup t seen acc
    else
      let acc' := acc ++ [r]
      if 5 ≤ acc'.length then acc'
      else pcDedup t (seen ++ [pcKey r]) acc'

/-- `description?.includes(needle)` with JavaScript truthiness. -/
def descIncl (r : PCRecipe) (needle : String) : Bool :=
  (r.description.map fun d => jsIncl d needle).getD false

/-- `hasDirectMatch` (`PaintContext.tsx:643`). -/
def hasDirectMatchB (recipes : List PCRecipe) : Bool :=
  recipes.any fun r =>
    r.paints.length == 1 || descIncl r "Direct match"
      || r.paints.all fun p =>
          !(jsIncl (jsLower p.paint.name) "ultramarine")
            && !(jsIncl (jsLower p.paint.name) "umber")
            && !(jsIncl (jsLower p.paint.name) "phthalo")
            && !(jsIncl (jsLower p.paint.name) "crimson")

/-- `hasChromatic` (`PaintContext.tsx:653`). -/
def hasChromaticB (recipes : List PCRecipe) : Bool :=
  recipes.any fun r =>
    2 ≤ r.paints.length
      && (r.paints.any fun p => jsIncl (jsLower p.paint.name) "ultramarine"
            || jsIncl (jsLower p.paint.name) "phthalo")
      && (r.paints.any fun p => jsIncl (jsLower p.paint.name) "umber"
            || jsIncl (jsLower p.paint.name) "crimson")

/-- The description assignment (`PaintContext.tsx:719`). -/
def assignDescription (M : MathOracle) (r : PCRecipe) : PCRecipe :=
  if r.description.isSome then r
  else
    let names := r.paints.map fun p => p.paint.name
    let description :=
      if r.paints.length = 1 then "Direct match with a single paint"
      else if r.paints.length = 2 then
        if names.any fun n => jsIncl (jsLower n) "white" then
          "Tint mixture (adding white to adjust value)"
        else if names.any fun n => jsIncl (jsLower n) "yellow" then
          "Warm tint mixture (adding yellow to brighten)"
        else if 0 < (findComplementaryPaints M (r.paints.getD 0 ⟨fallbackPaint, 1⟩).paint
            ((r.paints.drop 1).map fun c => c.paint)).length then
          "Chroma reduction using complementary colors"
        else if (names.any fun n => jsIncl (jsLower n) "ultramarine"
              || jsIncl (jsLower n) "phthalo")
            ∧ (names.any fun n => jsIncl (jsLower n) "umber"
              || jsIncl (jsLower n) "crimson") then
          "Chromatic black mixture (richer, more natural darks)"
        else "Traditional binary mixture for hue adjustment"
      else if r.paints.length = 3 then
        if ((names.any fun n => jsIncl (jsLower n) "ultramarine")
              ∧ (names.any fun n => jsIncl (jsLower n) "umber"))
            ∨ ((names.any fun n => jsIncl (jsLower n) "phthalo")
              ∧ (names.any fun n => jsIncl (jsLower n) "crimson")) then
          "Chromatic black mixture with value adjustment"
        else "Complex mixture for precise color matching"
      else ""
    { r with description := some description }

/-- Order of the final sort (`PaintContext.tsx:763`): recipes described as
chromatic blacks first, then by descending match percentage. -/
def pcFinalLE (a b : PCRecipe) : Prop :=
  (descIncl a "Chromatic black" = true ∧ descIncl b "Chromatic black" = false)
    ∨ (descIncl a "Chromatic black" = descIncl b "Chromatic black"
        ∧ Score.le b.score a.score)

instance : DecidableRel pcGE := fun x y =>
  inferInstanceAs (Decidable (Score.le y.score x.score))

instance : DecidableRel pcFinalLE := fun _ _ =>
  inferInstanceAs (Decidable (_ ∨ _))

/-- `findPaintMixtures` (`PaintContext.tsx:248`), parameterized by the
abstract perceptual metric `dE` (used only in the dark-target direct-match
fix-up, `PaintContext.tsx:665`), the `Math.atan2`/`Math.PI` oracle `M`, and
the caller-supplied paint catalog (`getAllPaints()`; the catalog lives
outside this core).  Returns the final sorted, deduplicated, capped recipe
list. -/
def findPaintMixtures (dE : LAB → LAB → ℚ) (M : MathOracle)
    (availablePaints : List Paint) (targetColor : LAB) : List PCRecipe :=
  if availablePaints.length = 0 then [fallbackRecipe]
  else
    let paintsWithLab := availablePaints.filter fun p => p.lab.isSome
    if paintsWithLab.length = 0 then [fallbackRecipe]
    else
      let sortedPaints := paintsWithLab.insertionSort (pcCloser targetColor)
      let targetTemperature := getColorTemperature targetColor
      let chromaticBlacks := findChromaticBlackPairs paintsWithLab
      let isDarkColor : Bool := decide (targetColor.L < 40)
      let singleRecipes := pcSingleRecipes targetColor sortedPaints
      let brandRecipes :=
        ((brandOrder paintsWithLab).map fun brandName =>
          pcBrandRecipes M targetColor targetTemperature chromaticBlacks
            isDarkColor (paintsWithLab.filter fun p => p.brand == brandName)).flatten
      let finalRecipes :=
        (singleRecipes ++ brandRecipes).insertionSort pcGE
      let uniqueRecipes := pcDedup finalRecipes [] []
      let uniqueRecipes2 :=
        if uniqueRecipes.length = 0 ∧ 0 < sortedPaints.length then
          match sortedPaints.head? with
          | some bestPaint =>
            uniqueRecipes ++
              [{ paints := [⟨bestPaint, 1⟩], score := .const 70,
                 estimatedLab := bestPaint.lab, description := none }]
          | none => uniqueRecipes ++ [fallbackRecipe]
        else if uniqueRecipes.length = 0 then uniqueRecipes ++ [fallbackRecipe]
        else uniqueRecipes
      let uniqueRecipes3 :=
        if isDarkColor ∧ hasDirectMatchB uniqueRecipes2 = false
            ∧ 0 < sortedPaints.length then
          match sortedPaints.head? with
          | some bestPaint =>
            uniqueRecipes2 ++
              [{ paints := [⟨bestPaint, 1⟩],
                 score := .const (max 60
                   (100 - dE (bestPaint.lab.getD ⟨0, 0, 0⟩) targetColor * 2)),
                 estimatedLab := bestPaint.lab,
                 description := some "Direct match with a single paint" }]
          | none => uniqueRecipes2
        else uniqueRecipes2
      let uniqueRecipes4 :=
        if isDarkColor ∧ hasChromaticB uniqueRecipes3 = false then
          match paintsWithLab.find? fun p =>
              jsIncl (jsLower p.name) "ultramarine"
                || jsIncl (jsLower p.name) "phthalo",
            paintsWithLab.find? fun p =>
              jsIncl (jsLower p.name) "umber"
                || jsIncl (jsLower p.name) "crimson" with
          | some ultramarineOrPhthalo, some umberOrCrimson =>
            let ulab := ultramarineOrPhthalo.lab.getD ⟨0, 0, 0⟩
            let clab := umberOrCrimson.lab.getD ⟨0, 0, 0⟩
            let mixedLab : LAB :=
              ⟨(ulab.L + clab.L) / 2, (ulab.a + clab.a) / 2, (ulab.b + clab.b) / 2⟩
            uniqueRecipes3 ++
              [{ paints := [⟨ultramarineOrPhthalo, 1/2⟩, ⟨umberOrCrimson, 1/2⟩],
                 score := Score.dist (dist2 mixedLab targetColor),
                 estimatedLab := some mixedLab,
                 description :=
                   some "Chromatic black mixture (richer, more natural darks)" }]
          | _, _ => uniqueRecipes3
        else uniqueRecipes3
      let recipesWithDescriptions := uniqueRecipes4.map (assignDescription M)
      (recipesWithDescriptions.insertionSort pcFinalLE).take 5

/-! ## imageAnalysis.ts — k-means palette clustering

`clusterColors` works on integer RGB samples.  `Math.random()` (centroid
seeding and empty-cluster reseeding) is modelled, as the specification
directs ("expose the random source as an injectable dependency"), by a
stream `rand : ℕ → ℕ` consumed in call order; each
`Math.floor(Math.random() * colors.length)` pick is embedded as
`rand i % colors.length`, a valid index.  `colorDistance` computes
`Math.sqrt` of the squared channel distance and is only used in
nearest-centroid comparisons, embedded on the squares; the initial
`Number.MAX_VALUE` sentinel, larger than every distance occurring on
8-bit channels, is embedded as `Option.none` (infinity). -/

/-- An RGB sample (integer channels, as read from image data). -/
structure RGBi where
  r : ℤ
  g : ℤ
  b : ℤ
deriving DecidableEq, Repr

/-- Squared `colorDistance` (`imageAnalysis.ts:285`). -/
def d2rgb (a b : RGBi) : ℤ :=
  (a.r - b.r) ^ 2 + (a.g - b.g) ^ 2 + (a.b - b.b) ^ 2

/-- A modelled `Math.floor(Math.random() * colors.length)` pick. -/
def jsPick (rand : ℕ → ℕ) (ctr : ℕ) (colors : List RGBi) : RGBi :=
  colors.getD (rand ctr % colors.length) ⟨0, 0, 0⟩

/-- The inner nearest-centroid scan (`imageAnalysis.ts:222`): strictly
smaller distance wins, first index wins ties. -/
def nearestAux (color : RGBi) : List RGBi → Nat → Option ℤ → Nat → Nat
  | [], _, _, best => best
  | c :: t, j, minD, best =>
    let d := d2rgb color c
    match minD with
    | none => nearestAux color t (j + 1) (some d) j
    | some m =>
      if d < m then nearestAux color t (j + 1) (some d) j
      else nearestAux color t (j + 1) (some m) best

/-- Index of the nearest centroid for one sample. -/
def nearestCluster (centroids : List RGBi) (color : RGBi) : Nat :=
  nearestAux color centroids 0 none 0

/-- Per-channel rounded arithmetic mean of a member list
(`imageAnalysis.ts:256`). -/
def roundedMeanRGB (colors : List RGBi) : RGBi :=
  ⟨jsRound (((colors.map fun c => c.r).sum : ℚ) / colors.length),
   jsRound (((colors.map fun c => c.g).sum : ℚ) / colors.length),
   jsRound (((colors.map fun c => c.b).sum : ℚ) / colors.length)⟩

/-- The centroid recomputation (`imageAnalysis.ts:240`): rounded mean of
each cluster's members, or a fresh random sample for an empty cluster
(consuming the random stream). -/
def updateCentroids (rand : ℕ → ℕ) (colors : List RGBi) (clusters : List Nat)
    (k : Nat) (ctr : Nat) : List RGBi × Nat :=
  (List.range k).foldl
    (fun st j =>
      let members := ((colors.zip clusters).filter fun p => p.2 == j).map
        fun p => p.1
      if 0 < members.length then (st.1 ++ [roundedMeanRGB members], st.2)
      else (st.1 ++ [jsPick rand st.2 colors], st.2 + 1))
    ([], ctr)

/-- The iteration of `clusterColors` (`imageAnalysis.ts:214`): reassign,
recompute centroids, stop when no assignment changed or the iteration cap
is reached. -/
def kmeansLoop (rand : ℕ → ℕ) (colors : List RGBi) (k : Nat) :
    Nat → List RGBi → List Nat → Nat → List RGBi × List Nat
  | 0, centroids, clusters, _ => (centroids, clusters)
  | fuel + 1, centroids, clusters, ctr =>
    let newClusters := colors.map (nearestCluster centroids)
    let hasChanged : Bool := decide (newClusters ≠ clusters)
    let upd := updateCentroids rand colors newClusters k ctr
    if hasChanged then kmeansLoop rand colors k fuel upd.1 newClusters upd.2
    else (upd.1, newClusters)

/-- A surviving cluster: centroid and member count. -/
structure Cluster where
  centroid : RGBi
  count : Nat
deriving DecidableEq, Repr

/-- `clusterColors` (`imageAnalysis.ts:197`): k-means over RGB samples with
random initialization, an iteration cap of 10, and removal of empty
clusters from the output. -/
def clusterColors (rand : ℕ → ℕ) (colors : List RGBi) (k : Nat := 8) :
    List Cluster :=
  if colors.length = 0 then []
  else
    let centroids0 := (List.range k).map fun i => jsPick rand i colors
    let clusters0 : List Nat := colors.map fun _ => 0
    let result := kmeansLoop rand colors k 10 centroids0 clusters0 k
    let clusterCounts := (List.range k).map fun j => result.2.count j
    ((result.1.zip clusterCounts).map fun p => Cluster.mk p.1 p.2).filter
      fun c => 0 < c.count

/-! ## Spec-side formulas and concrete fixtures -/

/-- The distance-to-percentage formula of `findPaintMixtures`
(`PaintContext.tsx:343` and its other scoring sites), as a function of the
distance value: `clamp₍₀,₁₀₀₎(100 − 2·dist)`.  `Score.toReal (Score.dist d2)`
equals `pcDistToPercent √d2` cast to `ℝ`. -/
def pcDistToPercent (dist : ℚ) : ℚ :=
  max 0 (min 100 (100 - dist * 2))

/-- The dulling factor exactly as the specification words it:
`1 − (maxPairwiseΔE/100) · baseRate · (1 − meanOpacity · 0.5)`. -/
def specDullingFactor (maxDeltaE baseRate meanOpacity : ℚ) : ℚ :=
  1 - maxDeltaE / 100 * baseRate * (1 - meanOpacity * (1/2))

/-- Fixture: a single white paint (name contains "white"). -/
def wPaint : Paint :=
  { id := "w1", brand := "B", name := "Pure White Test", pigmentCodes := [],
    opacity := .O, tintingStrength := none, lab := some ⟨52, 0, 0⟩ }

/-- Fixture: a paint without a LAB value. -/
def noLabPaint : Paint :=
  { id := "n1", brand := "B", name := "Mystery Swatch", pigmentCodes := [],
    opacity := .O, tintingStrength := none, lab := none }

/-- Fixtures: three neutral gray paints on the `L` axis. -/
def grayA : Paint :=
  { id := "a", brand := "B", name := "Gray Deep", pigmentCodes := [],
    opacity := .O, tintingStrength := none, lab := some ⟨30, 0, 0⟩ }

def grayB : Paint :=
  { id := "b", brand := "B", name := "Gray Mid", pigmentCodes := [],
    opacity := .O, tintingStrength := none, lab := some ⟨60, 0, 0⟩ }

def grayC : Paint :=
  { id := "c", brand := "B", name := "Gray Soft", pigmentCodes := [],
    opacity := .O, tintingStrength := none, lab := some ⟨70, 0, 0⟩ }

/-- Fixture catalog for the ternary-gate scenario. -/
def c2cat : List Paint := [grayA, grayB, grayC]

/-- Fixture target for the ternary-gate scenario. -/
def c2target : LAB := ⟨50, 0, 0⟩

/-- Fixture: an opaque and a transparent paint differing only in `a`. -/
def cpOpaque : Paint :=
  { id := "p1", brand := "B", name := "Test Opaque", pigmentCodes := [],
    opacity := .O, tintingStrength := none, lab := some ⟨50, 10, 0⟩ }

def cpTransparent : Paint :=
  { id := "p2", brand := "B", name := "Test Glaze", pigmentCodes := [],
    opacity := .T, tintingStrength := none, lab := some ⟨50, 30, 0⟩ }

/-- Fixtures: two transparent paints with an extreme (out-of-gamut) `b`
difference. -/
def exPaint1 : Paint :=
  { id := "x1", brand := "B", name := "Extreme One", pigmentCodes := [],
    opacity := .T, tintingStrength := none, lab := some ⟨0, 0, 1000⟩ }

def exPaint2 : Paint :=
  { id := "x2", brand := "B", name := "Extreme Two", pigmentCodes := [],
    opacity := .T, tintingStrength := none, lab := some ⟨0, 0, 0⟩ }

/-- Fixtures: three single-paint brands for the `findPaintMixtures`
ranking scenario — a close gray, an ultramarine-named and an umber-named
paint whose 50/50 blend scores below the gray. -/
def ggPaint : Paint :=
  { id := "gg", brand := "X", name := "Graystone Deep", pigmentCodes := [],
    opacity := .O, tintingStrength := none, lab := some ⟨32, 0, 0⟩ }

def ubPaint : Paint :=
  { id := "ub", brand := "Y", name := "Ultramarine Special", pigmentCodes := [],
    opacity := .O, tintingStrength := none, lab := some ⟨80, 0, 0⟩ }

def umPaint : Paint :=
  { id := "um", brand := "Z", name := "Raw Umber Test", pigmentCodes := [],
    opacity := .O, tintingStrength := none, lab := some ⟨0, 0, 0⟩ }

/-- Fixture catalog for the `findPaintMixtures` ranking scenario. -/
def c8cat : List Paint := [ggPaint, ubPaint, umPaint]

/-- Fixture (dark) target for the `findPaintMixtures` ranking scenario. -/
def c8target : LAB := ⟨30, 0, 0⟩

/-- Fixture: a paint exactly matching the near-perfect-witness target. -/
def exactPaint : Paint :=
  { id := "e1", brand := "B", name := "Exact Match", pigmentCodes := [],
    opacity := .O, tintingStrength := none, lab := some ⟨10, 20, 30⟩ }

/-- Fixture: a paint one `L` unit from the ternary-gate-witness target. -/
def closePaint : Paint :=
  { id := "c1", brand := "B", name := "Close Match", pigmentCodes := [],
    opacity := .O, tintingStrength := none, lab := some ⟨11, 20, 30⟩ }

/-- Fixture sample list for the clustering claim. -/
def c9colors : List RGBi := [⟨0, 0, 0⟩, ⟨1, 1, 1⟩]

/-- A fixed random stream for the clustering claim. -/
def rand0 : ℕ → ℕ := fun _ => 0

/-- A recipe's score is the shared `deltaEToPercentage` formula applied to
the ΔE between the target and the recipe's estimated color. -/
def ScoredBy (dE : LAB → LAB → ℚ) (target : LAB) (r : MixingRecipe) : Prop :=
  r.matchPercentage = deltaEToPercentage (dE target r.estimatedLabColor)

/-- A recipe's component proportions sum to exactly 1. -/
def PropSum1 (r : MixingRecipe) : Prop :=
  (r.paints.map fun c => c.proportion).sum = 1

/-- Pairwise component-count comparison. -/
def lenLE (x y : MixingRecipe) : Prop :=
  x.paints.length ≤ y.paints.length

/-- Shorthand for the C2/C4/C8 concrete evaluations: a binary recipe of two
named gray paints. -/
def c2binr (p q : Paint) (r pct L : ℚ) : MixingRecipe :=
  ⟨[⟨p, r⟩, ⟨q, 1 - r⟩], pct, ⟨L, 0, 0⟩⟩

/-- Shorthand: a ternary recipe over the three gray fixture paints. -/
def c2tern (r1 r2 r3 pct L : ℚ) : MixingRecipe :=
  ⟨[⟨grayB, r1⟩, ⟨grayA, r2⟩, ⟨grayC, r3⟩], pct, ⟨L, 0, 0⟩⟩

/-- Shorthand: a single-paint recipe. -/
def c2single (p : Paint) (pct L : ℚ) : MixingRecipe :=
  ⟨[⟨p, 1⟩], pct, ⟨L, 0, 0⟩⟩

/-- Fixture target for the dedup evaluation. -/
def c4target : LAB := ⟨40, 0, 0⟩

/-- The single-paint recipe produced for `c4target` from `[wPaint]`. -/
def c4rec1 : MixingRecipe := ⟨[⟨wPaint, 1⟩], 40, ⟨52, 0, 0⟩⟩

/-- The degenerate white-white binary recipe at white ratio `r`. -/
def c4bin (r : ℚ) : MixingRecipe :=
  ⟨[⟨wPaint, r⟩, ⟨wPaint, 1 - r⟩], 40, ⟨52, 0, 0⟩⟩

/-- The chromatic-black fixup recipe produced for `c8target`. -/
def c8chrom : PCRecipe :=
  ⟨[⟨ubPaint, 1/2⟩, ⟨umPaint, 1/2⟩], Score.dist 100, some ⟨40, 0, 0⟩,
   some "Chromatic black mixture (richer, more natural darks)"⟩

/-- The single-paint recipe produced for `c8target`, before descriptions. -/
def c8single0 : PCRecipe :=
  ⟨[⟨ggPaint, 1⟩], Score.dist 4, some ⟨32, 0, 0⟩, none⟩

/-- The single-paint recipe produced for `c8target`, with its description. -/
def c8single : PCRecipe :=
  ⟨[⟨ggPaint, 1⟩], Score.dist 4, some ⟨32, 0, 0⟩,
   some "Direct match with a single paint"⟩

/-- A `findPaintMixtures` recipe's component proportions sum to exactly 1. -/
def pcSum (r : PCRecipe) : Prop :=
  (r.paints.map fun c => c.proportion).sum = 1

/-! ## Structural lemmas about the search pipeline -/

theorem sortRecipes_sorted (l : List MixingRecipe) :
    (sortRecipes l).Sorted recGE :=
  List.sorted_insertionSort recGE l

theorem mem_sortRecipes {r : MixingRecipe} {l : List MixingRecipe} :
    r ∈ sortRecipes l ↔ r ∈ l :=
  List.mem_insertionSort recGE

/-- `orderedInsert` preserves a pairwise relation `P`, provided `P v u`
holds whenever `u` strictly precedes `v` in the sort order (the only pairs a
stable sort can swap). -/
theorem pairwise_orderedInsert {α : Type} (r : α → α → Prop) [DecidableRel r]
    (P : α → α → Prop) (H : ∀ u v, ¬ r u v → P v u) :
    ∀ (l : List α) (x : α), (∀ y ∈ l, P x y) → l.Pairwise P →
      (l.orderedInsert r x).Pairwise P := by
  intro l
  induction l with
  | nil =>
    intro x _ _
    simp [List.orderedInsert]
  | cons b bs ih =>
    intro x hx hbl
    rw [List.orderedInsert]
    rcases List.pairwise_cons.mp hbl with ⟨hb, hbs⟩
    by_cases hrxb : r x b
    · rw [if_pos hrxb]
      exact List.pairwise_cons.mpr ⟨hx, hbl⟩
    · rw [if_neg hrxb]
      refine List.pairwise_cons.mpr ⟨?_, ?_⟩
      · intro y hy
        rcases (List.mem_orderedInsert r).mp hy with hyx | hyin
        · subst hyx
          exact H _ b hrxb
        · exact hb y hyin
      · exact ih x (fun y hy => hx y (List.mem_cons_of_mem b hy)) hbs

/-- `insertionSort` preserves a pairwise relation `P`, provided `P v u` holds
whenever `u` strictly precedes `v` in the sort order. -/
theorem pairwise_insertionSort {α : Type} (r : α → α → Prop) [DecidableRel r]
    (P : α → α → Prop) (H : ∀ u v, ¬ r u v → P v u) :
    ∀ (l : List α), l.Pairwise P → (l.insertionSort r).Pairwise P := by
  intro l
  induction l with
  | nil =>
    intro _
    simp [List.insertionSort]
  | cons x t ih =>
    intro hl
    rcases List.pairwise_cons.mp hl with ⟨hx, ht⟩
    rw [List.insertionSort]
    exact pairwise_orderedInsert r P H (t.insertionSort r) x
      (fun y hy => hx y ((List.mem_insertionSort r).mp hy)) (ih ht)

/-- The duplicate test of `dedupStep` succeeds exactly on equal paint-id
multisets (the length test is subsumed: equal multisets have equal
cardinality). -/
theorem dedupTest_iff (existing recipe : MixingRecipe) :
    (existing.paints.length == recipe.paints.length
        && decide (idMultiset existing = idMultiset recipe)) = true
      ↔ idMultiset existing = idMultiset recipe := by
  constructor
  · intro h
    exact of_decide_eq_true (Bool.and_elim_right h)
  · intro h
    have hlen : existing.paints.length = recipe.paints.length := by
      have := congrArg Multiset.card h
      simpa [idMultiset] using this
    simp [hlen, h]

/-- The dedup fold only ever appends to its accumulator. -/
theorem dedup_foldl_extends :
    ∀ (l acc : List MixingRecipe),
      ∃ s, List.foldl dedupStep acc l = acc ++ s ∧ s.Sublist l := by
  intro l
  induction l with
  | nil =>
    intro acc
    exact ⟨[], by simp⟩
  | cons x t ih =>
    intro acc
    rw [List.foldl_cons]
    by_cases hdup : (acc.any fun existing =>
        existing.paints.length == x.paints.length
          && decide (idMultiset existing = idMultiset x)) = true
    · have hstep : dedupStep acc x = acc := by
        simp [dedupStep, hdup]
      rcases ih acc with ⟨s, hs, hsub⟩
      refine ⟨s, ?_, hsub.cons x⟩
      rw [hstep, hs]
    · have hstep : dedupStep acc x = acc ++ [x] := by
        simp only [Bool.not_eq_true] at hdup
        simp [dedupStep, hdup]
      rcases ih (acc ++ [x]) with ⟨s, hs, hsub⟩
      refine ⟨x :: s, ?_, hsub.cons₂ x⟩
      rw [hstep, hs, List.append_assoc]
      rfl

/-- `removeRedundantRecipes` returns a sublist of its input. -/
theorem removeRedundantRecipes_sublist (l : List MixingRecipe) :
    (removeRedundantRecipes l).Sublist l := by
  rcases dedup_foldl_extends l [] with ⟨s, hs, hsub⟩
  unfold removeRedundantRecipes
  rw [hs]
  simpa using hsub

/-- The recipes kept by the dedup fold have pairwise distinct paint-id
multisets. -/
theorem dedup_foldl_pairwise :
    ∀ (l acc : List MixingRecipe),
      acc.Pairwise (fun r s => idMultiset r ≠ idMultiset s) →
      (List.foldl dedupStep acc l).Pairwise
        (fun r s => idMultiset r ≠ idMultiset s) := by
  intro l
  induction l with
  | nil =>
    intro acc hacc
    simpa using hacc
  | cons x t ih =>
    intro acc hacc
    rw [List.foldl_cons]
    refine ih _ ?_
    by_cases hdup : (acc.any fun existing =>
        existing.paints.length == x.paints.length
          && decide (idMultiset existing = idMultiset x)) = true
    · have hstep : dedupStep acc x = acc := by
        simp [dedupStep, hdup]
      rw [hstep]
      exact hacc
    · have hdup' := hdup
      simp only [Bool.not_eq_true] at hdup'
      have hstep : dedupStep acc x = acc ++ [x] := by
        simp [dedupStep, hdup']
      have hnone : ∀ e ∈ acc, idMultiset e ≠ idMultiset x := by
        intro e he heq
        have htest : (e.paints.length == x.paints.length
            && decide (idMultiset e = idMultiset x)) = true :=
          (dedupTest_iff e x).mpr heq
        exact hdup (List.any_eq_true.mpr ⟨e, he, htest⟩)
      rw [hstep, List.pairwise_append]
      exact ⟨hacc, List.pairwise_singleton _ _, by
        intro a ha b hb
        rw [List.mem_singleton] at hb
        subst hb
        exact hnone a ha⟩

/-- `removeRedundantRecipes` output has pairwise distinct paint-id
multisets. -/
theorem removeRedundantRecipes_pairwise (l : List MixingRecipe) :
    (removeRedundantRecipes l).Pairwise
      (fun r s => idMultiset r ≠ idMultiset s) :=
  dedup_foldl_pairwise l [] (List.Pairwise.nil)

theorem tintingStrengthToNumeric_pos (o : Option Tinting) :
    0 < tintingStrengthToNumeric o := by
  rcases o with _ | t
  · norm_num [tintingStrengthToNumeric]
  · cases t <;> norm_num [tintingStrengthToNumeric]

/-- Every single-pass recipe is a one-paint recipe with proportion 1, scored
by the shared formula on its own LAB value. -/
theorem findSinglePaintMatches_mem (dE : LAB → LAB → ℚ) (target : LAB)
    (availablePaints : List Paint) :
    ∀ r ∈ findSinglePaintMatches dE target availablePaints,
      r.paints.length = 1 ∧ PropSum1 r ∧ ScoredBy dE target r := by
  intro r hr
  unfold findSinglePaintMatches at hr
  have hr' := mem_sortRecipes.mp (List.take_subset _ _ hr)
  rcases List.mem_filterMap.mp hr' with ⟨p, _, hp⟩
  rcases hlab : p.lab with _ | lab
  · rw [hlab] at hp
    simp at hp
  · rw [hlab] at hp
    simp only [Option.some.injEq] at hp
    subst hp
    refine ⟨rfl, ?_, rfl⟩
    simp [PropSum1]

theorem mkBinaryRecipe_mem (dE : LAB → LAB → ℚ) (target : LAB)
    (paint1 paint2 : Paint) (adjustedRatio : ℚ) :
    (mkBinaryRecipe dE target paint1 paint2 adjustedRatio).paints.length = 2
      ∧ PropSum1 (mkBinaryRecipe dE target paint1 paint2 adjustedRatio)
      ∧ ScoredBy dE target (mkBinaryRecipe dE target paint1 paint2 adjustedRatio) := by
  refine ⟨rfl, ?_, rfl⟩
  simp [PropSum1, mkBinaryRecipe]

/-- Recipes appended by the binary pair loop satisfy any predicate holding
of all `mkBinaryRecipe` results. -/
theorem binaryPairLoop_mem (dE : LAB → LAB → ℚ) (target : LAB)
    (P : MixingRecipe → Prop)
    (hmk : ∀ p1 p2 a, P (mkBinaryRecipe dE target p1 p2 a)) (paint1 : Paint) :
    ∀ (l : List Paint) (st : SearchState), (∀ r ∈ st.1, P r) →
      ∀ r ∈ (binaryPairLoop dE target paint1 l st).1, P r := by
  intro l
  induction l with
  | nil =>
    intro st hst
    exact hst
  | cons paint2 rest ih =>
    intro st hst
    rcases st with ⟨acc, attempts⟩
    rw [binaryPairLoop]
    by_cases hatt : attempts < MAX_ATTEMPTS
    · rw [if_pos hatt]
      rcases hlab : paint2.lab with _ | lab
      · exact ih _ hst
      · refine ih _ ?_
        intro r hr
        rcases List.mem_append.mp hr with h | h
        · exact hst r h
        · rcases List.mem_map.mp h with ⟨ratio, _, hrr⟩
          rw [← hrr]
          exact hmk _ _ _
    · rw [if_neg hatt]
      exact hst

theorem binaryWhiteStep_mem (dE : LAB → LAB → ℚ) (target : LAB)
    (P : MixingRecipe → Prop)
    (hmk : ∀ p1 p2 a, P (mkBinaryRecipe dE target p1 p2 a))
    (whitePaints : List Paint) (paint1 : Paint) :
    ∀ (st : SearchState), (∀ r ∈ st.1, P r) →
      ∀ r ∈ (binaryWhiteStep dE target whitePaints paint1 st).1, P r := by
  intro st hst
  rcases whitePaints with _ | ⟨w, ws⟩
  · exact hst
  · rcases hlab : w.lab with _ | lab
    · simp only [binaryWhiteStep, hlab]
      exact hst
    · simp only [binaryWhiteStep, hlab]
      intro r hr
      rcases List.mem_append.mp hr with h | h
      · exact hst r h
      · rcases List.mem_map.mp h with ⟨ratio, _, hrr⟩
        rw [← hrr]
        exact hmk _ _ _

theorem binaryBlackStep_mem (dE : LAB → LAB → ℚ) (target : LAB)
    (P : MixingRecipe → Prop)
    (hmk : ∀ p1 p2 a, P (mkBinaryRecipe dE target p1 p2 a))
    (blackPaints : List Paint) (paint1 : Paint) :
    ∀ (st : SearchState), (∀ r ∈ st.1, P r) →
      ∀ r ∈ (binaryBlackStep dE target blackPaints paint1 st).1, P r := by
  intro st hst
  rcases blackPaints with _ | ⟨b, bs⟩
  · exact hst
  · rcases hlab : b.lab with _ | lab
    · simp only [binaryBlackStep, hlab]
      exact hst
    · simp only [binaryBlackStep, hlab]
      intro r hr
      rcases List.mem_append.mp hr with h | h
      · exact hst r h
      · rcases List.mem_map.mp h with ⟨ratio, _, hrr⟩
        rw [← hrr]
        exact hmk _ _ _

theorem binaryOuterLoop_mem (dE : LAB → LAB → ℚ) (target : LAB)
    (P : MixingRecipe → Prop)
    (hmk : ∀ p1 p2 a, P (mkBinaryRecipe dE target p1 p2 a))
    (whitePaints blackPaints : List Paint) :
    ∀ (l : List Paint) (st : SearchState), (∀ r ∈ st.1, P r) →
      ∀ r ∈ (binaryOuterLoop dE target whitePaints blackPaints l st).1, P r := by
  intro l
  induction l with
  | nil =>
    intro st hst
    exact hst
  | cons paint1 rest ih =>
    intro st hst
    rcases st with ⟨acc, attempts⟩
    rw [binaryOuterLoop]
    by_cases hatt : attempts < MAX_ATTEMPTS
    · rw [if_pos hatt]
      rcases hlab : paint1.lab with _ | lab
      · exact ih _ hst
      · refine ih _ ?_
        refine binaryBlackStep_mem dE target P hmk blackPaints paint1 _ ?_
        refine binaryWhiteStep_mem dE target P hmk whitePaints paint1 _ ?_
        exact binaryPairLoop_mem dE target P hmk paint1 rest _ hst
    · rw [if_neg hatt]
      exact hst

/-- Every binary-pass recipe is a two-paint recipe whose proportions are
`r` and `1−r`, scored by the shared formula on its estimated color. -/
theorem findBinaryMixes_mem (dE : LAB → LAB → ℚ) (target : LAB)
    (availablePaints : List Paint) :
    ∀ r ∈ findBinaryMixes dE target availablePaints,
      r.paints.length = 2 ∧ PropSum1 r ∧ ScoredBy dE target r := by
  intro r hr
  unfold findBinaryMixes at hr
  have hr' := mem_sortRecipes.mp (List.take_subset _ _ hr)
  exact binaryOuterLoop_mem dE target
    (fun r => r.paints.length = 2 ∧ PropSum1 r ∧ ScoredBy dE target r)
    (fun p1 p2 a => mkBinaryRecipe_mem dE target p1 p2 a)
    _ _ _ ([], 0) (by intro r hr0; simp at hr0) r hr'

theorem ternaryRatioSets_pos :
    ∀ rs ∈ ternaryRatioSets, 0 < rs.1 ∧ 0 < rs.2.1 ∧ 0 < rs.2.2 := by
  intro rs hrs
  fin_cases hrs <;> norm_num [ternaryRatioSets]

theorem ternaryWhiteRatioSets_sum :
    ∀ rs ∈ ternaryWhiteRatioSets, rs.1 + rs.2.1 + rs.2.2 = 1 := by
  intro rs hrs
  fin_cases hrs <;> norm_num [ternaryWhiteRatioSets]

theorem mkTernaryRecipe_mem (dE : LAB → LAB → ℚ) (target : LAB)
    (paint1 paint2 paint3 : Paint) (rs : ℚ × ℚ × ℚ)
    (hrs : rs ∈ ternaryRatioSets) :
    (mkTernaryRecipe dE target paint1 paint2 paint3 rs).paints.length = 3
      ∧ PropSum1 (mkTernaryRecipe dE target paint1 paint2 paint3 rs)
      ∧ ScoredBy dE target (mkTernaryRecipe dE target paint1 paint2 paint3 rs) := by
  rcases ternaryRatioSets_pos rs hrs with ⟨h1, h2, h3⟩
  refine ⟨rfl, ?_, rfl⟩
  have t1 := tintingStrengthToNumeric_pos paint1.tintingStrength
  have t2 := tintingStrengthToNumeric_pos paint2.tintingStrength
  have t3 := tintingStrengthToNumeric_pos paint3.tintingStrength
  have hT : 0 < rs.1 * tintingStrengthToNumeric paint1.tintingStrength
      + rs.2.1 * tintingStrengthToNumeric paint2.tintingStrength
      + rs.2.2 * tintingStrengthToNumeric paint3.tintingStrength :=
    add_pos (add_pos (mul_pos h1 t1) (mul_pos h2 t2)) (mul_pos h3 t3)
  have hT' := hT.ne'
  simp only [PropSum1, mkTernaryRecipe, List.map_cons, List.map_nil,
    List.sum_cons, List.sum_nil, add_zero]
  field_simp
  ring

theorem mkTernaryWhiteRecipe_mem (dE : LAB → LAB → ℚ) (target : LAB)
    (paint1 paint2 whitePaint : Paint) (rs : ℚ × ℚ × ℚ)
    (hrs : rs ∈ ternaryWhiteRatioSets) :
    (mkTernaryWhiteRecipe dE target paint1 paint2 whitePaint rs).paints.length = 3
      ∧ PropSum1 (mkTernaryWhiteRecipe dE target paint1 paint2 whitePaint rs)
      ∧ ScoredBy dE target (mkTernaryWhiteRecipe dE target paint1 paint2 whitePaint rs) := by
  refine ⟨rfl, ?_, rfl⟩
  simp only [PropSum1, mkTernaryWhiteRecipe, List.map_cons, List.map_nil,
    List.sum_cons, List.sum_nil, add_zero]
  have := ternaryWhiteRatioSets_sum rs hrs
  linarith

theorem ternaryKLoop_mem (dE : LAB → LAB → ℚ) (target : LAB)
    (P : MixingRecipe → Prop)
    (hmk : ∀ p1 p2 p3 rs, rs ∈ ternaryRatioSets →
      P (mkTernaryRecipe dE target p1 p2 p3 rs)) (paint1 paint2 : Paint) :
    ∀ (l : List Paint) (st : SearchState), (∀ r ∈ st.1, P r) →
      ∀ r ∈ (ternaryKLoop dE target paint1 paint2 l st).1, P r := by
  intro l
  induction l with
  | nil =>
    intro st hst
    exact hst
  | cons paint3 rest ih =>
    intro st hst
    rcases st with ⟨acc, attempts⟩
    rw [ternaryKLoop]
    by_cases hatt : attempts < MAX_ATTEMPTS
    · rw [if_pos hatt]
      rcases hlab : paint3.lab with _ | lab
      · exact ih _ hst
      · refine ih _ ?_
        intro r hr
        rcases List.mem_append.mp hr with h | h
        · exact hst r h
        · rcases List.mem_map.mp h with ⟨rs, hrs, hrr⟩
          rw [← hrr]
          exact hmk _ _ _ rs hrs
    · rw [if_neg hatt]
      exact hst

theorem ternaryJLoop_mem (dE : LAB → LAB → ℚ) (target : LAB)
    (P : MixingRecipe → Prop)
    (hmk : ∀ p1 p2 p3 rs, rs ∈ ternaryRatioSets →
      P (mkTernaryRecipe dE target p1 p2 p3 rs)) (paint1 : Paint) :
    ∀ (l : List Paint) (st : SearchState), (∀ r ∈ st.1, P r) →
      ∀ r ∈ (ternaryJLoop dE target paint1 l st).1, P r := by
  intro l
  induction l with
  | nil =>
    intro st hst
    exact hst
  | cons paint2 rest ih =>
    intro st hst
    rcases st with ⟨acc, attempts⟩
    rw [ternaryJLoop]
    by_cases hatt : attempts < MAX_ATTEMPTS
    · rw [if_pos hatt]
      rcases hlab : paint2.lab with _ | lab
      · exact ih _ hst
      · exact ih _ (ternaryKLoop_mem dE target P hmk paint1 paint2 rest _ hst)
    · rw [if_neg hatt]
      exact hst

theorem ternaryWhiteLoop_mem (dE : LAB → LAB → ℚ) (target : LAB)
    (P : MixingRecipe → Prop)
    (hmkW : ∀ p1 p2 w rs, rs ∈ ternaryWhiteRatioSets →
      P (mkTernaryWhiteRecipe dE target p1 p2 w rs)) (whitePaint paint1 : Paint) :
    ∀ (l : List Paint) (st : SearchState), (∀ r ∈ st.1, P r) →
      ∀ r ∈ (ternaryWhiteLoop dE target whitePaint paint1 l st).1, P r := by
  intro l
  induction l with
  | nil =>
    intro st hst
    exact hst
  | cons paint2 rest ih =>
    intro st hst
    rcases st with ⟨acc, attempts⟩
    rw [ternaryWhiteLoop]
    by_cases hatt : attempts < MAX_ATTEMPTS
    · rw [if_pos hatt]
      rcases hlab : paint2.lab with _ | lab
      · exact ih _ hst
      · refine ih _ ?_
        intro r hr
        rcases List.mem_append.mp hr with h | h
        · exact hst r h
        · rcases List.mem_map.mp h with ⟨rs, hrs, hrr⟩
          rw [← hrr]
          exact hmkW _ _ _ rs hrs
    · rw [if_neg hatt]
      exact hst

theorem ternaryOuterLoop_mem (dE : LAB → LAB → ℚ) (target : LAB)
    (P : MixingRecipe → Prop)
    (hmk : ∀ p1 p2 p3 rs, rs ∈ ternaryRatioSets →
      P (mkTernaryRecipe dE target p1 p2 p3 rs))
    (hmkW : ∀ p1 p2 w rs, rs ∈ ternaryWhiteRatioSets →
      P (mkTernaryWhiteRecipe dE target p1 p2 w rs))
    (whitePaint? : Option Paint) :
    ∀ (l beforePaint1 : List Paint) (st : SearchState), (∀ r ∈ st.1, P r) →
      ∀ r ∈ (ternaryOuterLoop dE target whitePaint? beforePaint1 l st).1, P r := by
  intro l
  induction l with
  | nil =>
    intro before st hst
    exact hst
  | cons paint1 rest ih =>
    intro before st hst
    rcases st with ⟨acc, attempts⟩
    rw [ternaryOuterLoop]
    by_cases hatt : attempts < MAX_ATTEMPTS
    · rw [if_pos hatt]
      rcases hlab : paint1.lab with _ | lab
      · exact ih _ _ hst
      · refine ih _ _ ?_
        have hst1 := ternaryJLoop_mem dE target P hmk paint1 rest _ hst
        rcases whitePaint? with _ | w
        · exact hst1
        · rcases hwlab : w.lab with _ | wlab
          · simpa [hwlab] using hst1
          · simp only [hwlab]
            exact ternaryWhiteLoop_mem dE target P hmkW w paint1 before _ hst1
    · rw [if_neg hatt]
      exact hst

/-- Every ternary-pass recipe is a three-paint recipe whose proportions sum
to 1, scored by the shared formula on its estimated color. -/
theorem findTernaryMixes_mem (dE : LAB → LAB → ℚ) (target : LAB)
    (availablePaints : List Paint) :
    ∀ r ∈ findTernaryMixes dE target availablePaints,
      r.paints.length = 3 ∧ PropSum1 r ∧ ScoredBy dE target r := by
  intro r hr
  unfold findTernaryMixes at hr
  have hr' := mem_sortRecipes.mp (List.take_subset _ _ hr)
  exact ternaryOuterLoop_mem dE target
    (fun r => r.paints.length = 3 ∧ PropSum1 r ∧ ScoredBy dE target r)
    (fun p1 p2 p3 rs hrs => mkTernaryRecipe_mem dE target p1 p2 p3 rs hrs)
    (fun p1 p2 w rs hrs => mkTernaryWhiteRecipe_mem dE target p1 p2 w rs hrs)
    _ _ [] ([], 0) (by intro r hr0; simp at hr0) r hr'

/-- Every recipe returned by `findOptimalPaintMixture` comes from one of the
three passes. -/
theorem findOptimalPaintMixture_mem (dE : LAB → LAB → ℚ) (target : LAB)
    (ps : List Paint) (mc : Nat) (P : MixingRecipe → Prop)
    (h1 : ∀ r ∈ findSinglePaintMatches dE target ps, P r)
    (h2 : ∀ r ∈ findBinaryMixes dE target ps, P r)
    (h3 : ∀ r ∈ findTernaryMixes dE target ps, P r) :
    ∀ r ∈ findOptimalPaintMixture dE (some target) (some ps) mc, P r := by
  intro r hr
  simp only [findOptimalPaintMixture] at hr
  split at hr
  · simp at hr
  · split at hr
    · exact h1 r (List.take_subset _ _ hr)
    · have hr2 := mem_sortRecipes.mp
        ((removeRedundantRecipes_sublist _).subset (List.take_subset _ _ hr))
      split at hr2
      · split at hr2
        · rcases List.mem_append.mp hr2 with hAB | hT
          · rcases List.mem_append.mp hAB with h | h
            · exact h1 r h
            · exact h2 r h
          · exact h3 r hT
        · rcases List.mem_append.mp hr2 with h | h
          · exact h1 r h
          · exact h2 r h
      · split at hr2
        · rcases List.mem_append.mp hr2 with h | hT
          · exact h1 r h
          · exact h3 r hT
        · exact h1 r hr2

theorem findSinglePaintMatches_sorted (dE : LAB → LAB → ℚ) (target : LAB)
    (ps : List Paint) :
    (findSinglePaintMatches dE target ps).Sorted recGE := by
  unfold findSinglePaintMatches
  exact List.Pairwise.sublist (List.take_sublist _ _) (sortRecipes_sorted _)

/-- The returned recipe list is sorted descending by match percentage. -/
theorem findOptimalPaintMixture_sorted (dE : LAB → LAB → ℚ)
    (tgt? : Option LAB) (cat? : Option (List Paint)) (mc : Nat) :
    (findOptimalPaintMixture dE tgt? cat? mc).Sorted recGE := by
  rcases tgt? with _ | target
  · simp [findOptimalPaintMixture, List.Sorted]
  rcases cat? with _ | ps
  · simp [findOptimalPaintMixture, List.Sorted]
  simp only [findOptimalPaintMixture]
  split
  · exact List.Pairwise.nil
  · split
    · exact List.Pairwise.sublist (List.take_sublist _ _)
        (findSinglePaintMatches_sorted dE target ps)
    · exact List.Pairwise.sublist
        ((List.take_sublist _ _).trans (removeRedundantRecipes_sublist _))
        (sortRecipes_sorted _)

/-- At most five recipes are returned. -/
theorem findOptimalPaintMixture_length_le (dE : LAB → LAB → ℚ)
    (tgt? : Option LAB) (cat? : Option (List Paint)) (mc : Nat) :
    (findOptimalPaintMixture dE tgt? cat? mc).length ≤ 5 := by
  rcases tgt? with _ | target
  · simp [findOptimalPaintMixture]
  rcases cat? with _ | ps
  · simp [findOptimalPaintMixture]
  simp only [findOptimalPaintMixture]
  split
  · simp
  · split
    · exact List.length_take_le _ _
    · exact List.length_take_le _ _

theorem pairwise_lenLE_of_const {l : List MixingRecipe} {n : Nat}
    (h : ∀ r ∈ l, r.paints.length = n) : l.Pairwise lenLE :=
  List.pairwise_of_forall_mem_list fun a ha b hb => by
    rw [lenLE, h a ha, h b hb]

/-- At equal match percentage, recipes with fewer components come first:
the pre-sort candidate list is grouped single < binary < ternary, and the
stable sort preserves the order of score ties. -/
theorem findOptimalPaintMixture_tiebreak (dE : LAB → LAB → ℚ) (target : LAB)
    (ps : List Paint) (mc : Nat) :
    (findOptimalPaintMixture dE (some target) (some ps) mc).Pairwise
      (fun x y => x.matchPercentage = y.matchPercentage →
        x.paints.length ≤ y.paints.length) := by
  have hsingles := findSinglePaintMatches_mem dE target ps
  have hbin := findBinaryMixes_mem dE target ps
  have htern := findTernaryMixes_mem dE target ps
  have hs1 : (findSinglePaintMatches dE target ps).Pairwise lenLE :=
    pairwise_lenLE_of_const (fun r hr => (hsingles r hr).1)
  have hb1 : (findBinaryMixes dE target ps).Pairwise lenLE :=
    pairwise_lenLE_of_const (fun r hr => (hbin r hr).1)
  have ht1 : (findTernaryMixes dE target ps).Pairwise lenLE :=
    pairwise_lenLE_of_const (fun r hr => (htern r hr).1)
  have hsb : (findSinglePaintMatches dE target ps
      ++ findBinaryMixes dE target ps).Pairwise lenLE := by
    rw [List.pairwise_append]
    refine ⟨hs1, hb1, fun a ha b hb => ?_⟩
    rw [lenLE, (hsingles a ha).1, (hbin b hb).1]
    norm_num
  have hsbt : (findSinglePaintMatches dE target ps ++ findBinaryMixes dE target ps
      ++ findTernaryMixes dE target ps).Pairwise lenLE := by
    rw [List.pairwise_append]
    refine ⟨hsb, ht1, fun a ha b hb => ?_⟩
    rcases List.mem_append.mp ha with h | h
    · rw [lenLE, (hsingles a h).1, (htern b hb).1]
      norm_num
    · rw [lenLE, (hbin a h).1, (htern b hb).1]
      norm_num
  have hst : (findSinglePaintMatches dE target ps
      ++ findTernaryMixes dE target ps).Pairwise lenLE := by
    rw [List.pairwise_append]
    refine ⟨hs1, ht1, fun a ha b hb => ?_⟩
    rw [lenLE, (hsingles a ha).1, (htern b hb).1]
    norm_num
  have himp : ∀ {a b : MixingRecipe}, lenLE a b →
      (a.matchPercentage = b.matchPercentage →
        a.paints.length ≤ b.paints.length) := fun hab _ => hab
  have key : ∀ l : List MixingRecipe, l.Pairwise lenLE →
      ((removeRedundantRecipes (sortRecipes l)).take 5).Pairwise
        (fun x y => x.matchPercentage = y.matchPercentage →
          x.paints.length ≤ y.paints.length) := by
    intro l hl
    refine List.Pairwise.sublist
      ((List.take_sublist _ _).trans (removeRedundantRecipes_sublist _)) ?_
    exact pairwise_insertionSort recGE _
      (fun u v hnot heq => absurd (le_of_eq heq) hnot) l
      (hl.imp himp)
  simp only [findOptimalPaintMixture]
  split
  · exact List.Pairwise.nil
  · split
    · exact List.Pairwise.sublist (List.take_sublist _ _) (hs1.imp himp)
    · split
      · split
        · exact key _ hsbt
        · exact key _ hsb
      · split
        · exact key _ hst
        · exact key _ hs1

theorem sortRecipes_eq_nil_iff {l : List MixingRecipe} :
    sortRecipes l = [] ↔ l = [] := by
  constructor
  · intro h
    have := List.perm_insertionSort recGE l
    rw [sortRecipes] at h
    rw [h] at this
    exact this.symm.eq_nil
  · intro h
    subst h
    rfl

theorem findSinglePaintMatches_eq_nil_iff (dE : LAB → LAB → ℚ) (target : LAB)
    (ps : List Paint) :
    findSinglePaintMatches dE target ps = [] ↔ ∀ p ∈ ps, p.lab = none := by
  unfold findSinglePaintMatches
  rw [List.take_eq_nil_iff]
  simp only [OfNat.ofNat_ne_zero, false_or]
  rw [sortRecipes_eq_nil_iff, List.filterMap_eq_nil_iff]
  constructor
  · intro h p hp
    have := h p hp
    rcases hl : p.lab with _ | lab
    · rfl
    · rw [hl] at this
      simp at this
  · intro h p hp
    rw [h p hp]

theorem binaryOuterLoop_no_lab (dE : LAB → LAB → ℚ) (target : LAB)
    (w b : List Paint) :
    ∀ (l : List Paint) (st : SearchState), (∀ p ∈ l, p.lab = none) →
      binaryOuterLoop dE target w b l st = st := by
  intro l
  induction l with
  | nil =>
    intro st _
    rfl
  | cons paint1 rest ih =>
    intro st hnone
    rcases st with ⟨acc, attempts⟩
    rw [binaryOuterLoop]
    by_cases hatt : attempts < MAX_ATTEMPTS
    · rw [if_pos hatt, hnone paint1 (List.mem_cons_self _ _)]
      exact ih _ (fun p hp => hnone p (List.mem_cons_of_mem _ hp))
    · rw [if_neg hatt]

theorem findBinaryMixes_eq_nil (dE : LAB → LAB → ℚ) (target : LAB)
    (ps : List Paint) (h : ∀ p ∈ ps, p.lab = none) :
    findBinaryMixes dE target ps = [] := by
  unfold findBinaryMixes
  simp only []
  rw [binaryOuterLoop_no_lab dE target _ _ ps ([], 0) h]
  rfl

theorem findTernaryMixes_eq_nil (dE : LAB → LAB → ℚ) (target : LAB)
    (ps : List Paint) (h : ∀ p ∈ ps, p.lab = none) :
    findTernaryMixes dE target ps = [] := by
  unfold findTernaryMixes
  have hfilter : (ps.filter fun p => p.lab.isSome) = [] := by
    rw [List.filter_eq_nil_iff]
    intro p hp
    rw [h p hp]
    simp
  rw [hfilter]
  rfl

theorem removeRedundantRecipes_ne_nil {l : List MixingRecipe} (h : l ≠ []) :
    removeRedundantRecipes l ≠ [] := by
  rcases l with _ | ⟨x, t⟩
  · exact absurd rfl h
  · unfold removeRedundantRecipes
    rw [List.foldl_cons]
    have hstep : dedupStep [] x = [x] := by
      simp [dedupStep]
    rw [hstep]
    rcases dedup_foldl_extends t [x] with ⟨s, hs, _⟩
    rw [hs]
    simp

theorem sqrt2500 : Real.sqrt 2500 = 50 := by
  rw [show (2500 : ℝ) = 50 ^ 2 by norm_num, Real.sqrt_sq (by norm_num)]

/-- The value represented by a distance score, with the truncated radicand
made explicit: `clamp₍₀,₁₀₀₎(100 − 2√x) = 100 − 2·√(min (max x 0) 2500)`. -/
theorem Score.toReal_dist_eq (x : ℚ) :
    (Score.dist x).toReal = 100 - 2 * Real.sqrt ((min (max x 0) 2500 : ℚ) : ℝ) := by
  rcases le_total x 0 with hx | hx
  · have hxr : (x : ℝ) ≤ 0 := by exact_mod_cast hx
    have h1 : Real.sqrt (x : ℝ) = 0 := Real.sqrt_eq_zero_of_nonpos hxr
    have h2 : min (max x 0) 2500 = (0 : ℚ) := by
      rw [max_eq_right hx]
      norm_num
    simp only [Score.toReal, h1, h2]
    norm_num
  · rcases le_total x 2500 with hx2 | hx2
    · have h2 : min (max x 0) 2500 = x := by
        rw [max_eq_left hx, min_eq_left hx2]
      have hs0 : 0 ≤ Real.sqrt (x : ℝ) := Real.sqrt_nonneg _
      have hs50 : Real.sqrt (x : ℝ) ≤ 50 := by
        have := Real.sqrt_le_sqrt (show (x : ℝ) ≤ 2500 by exact_mod_cast hx2)
        rwa [sqrt2500] at this
      simp only [Score.toReal, h2]
      rw [min_eq_right (by linarith), max_eq_right (by linarith)]
    · have h2 : min (max x 0) 2500 = (2500 : ℚ) := by
        rw [max_eq_left hx, min_eq_right hx2]
      have hs : (50 : ℝ) ≤ Real.sqrt (x : ℝ) := by
        have := Real.sqrt_le_sqrt (show (2500 : ℝ) ≤ x by exact_mod_cast hx2)
        rwa [sqrt2500] at this
      simp only [Score.toReal, h2]
      rw [min_eq_right (by linarith), max_eq_left (by linarith)]
      push_cast
      rw [sqrt2500]
      norm_num

theorem truncRadicand_nonneg (x : ℚ) : (0 : ℚ) ≤ min (max x 0) 2500 := by
  rw [le_min_iff]
  constructor
  · exact le_max_right x 0
  · norm_num

theorem truncRadicand_le (x : ℚ) : min (max x 0) 2500 ≤ 2500 :=
  min_le_right _ _

theorem sqrt_truncRadicand_le (x : ℚ) :
    Real.sqrt ((min (max x 0) 2500 : ℚ) : ℝ) ≤ 50 := by
  have := Real.sqrt_le_sqrt
    (show ((min (max x 0) 2500 : ℚ) : ℝ) ≤ 2500 by exact_mod_cast truncRadicand_le x)
  rwa [sqrt2500] at this

/-- `100 − 2√a ≤ c` for nonnegative `a` and `c ∈ [0,100)` reduces to
`(100−c)² ≤ 4a`. -/
theorem clamp_le_const_iff (a c : ℚ) (ha : 0 ≤ a) (hc0 : 0 ≤ c) (hc1 : c < 100) :
    (100 - 2 * Real.sqrt ((a : ℚ) : ℝ) ≤ (c : ℝ)) ↔ (100 - c) ^ 2 ≤ 4 * a := by
  have key : (100 - 2 * Real.sqrt ((a : ℚ) : ℝ) ≤ (c : ℝ))
      ↔ (((100 - c) / 2 : ℚ) : ℝ) ≤ Real.sqrt ((a : ℚ) : ℝ) := by
    constructor
    · intro h
      push_cast
      linarith
    · intro h
      push_cast at h
      linarith
  have hcr : (c : ℝ) < 100 := by exact_mod_cast hc1
  rw [key, Real.le_sqrt (by push_cast; linarith) (by exact_mod_cast ha)]
  constructor
  · intro h
    have h' : (((100 - c) / 2) ^ 2 : ℚ) ≤ a := by exact_mod_cast h
    nlinarith
  · intro h
    have h' : (((100 - c) / 2) ^ 2 : ℚ) ≤ a := by nlinarith
    exact_mod_cast h'

/-- `c ≤ 100 − 2√a` for `c ∈ (0,100]` reduces to `4a ≤ (100−c)²`. -/
theorem const_le_clamp_iff (a c : ℚ) (hc : 0 ≤ (100 - c : ℚ)) :
    ((c : ℝ) ≤ 100 - 2 * Real.sqrt ((a : ℚ) : ℝ)) ↔ a ≤ ((100 - c) / 2) ^ 2 := by
  have key : ((c : ℝ) ≤ 100 - 2 * Real.sqrt ((a : ℚ) : ℝ))
      ↔ Real.sqrt ((a : ℚ) : ℝ) ≤ (((100 - c) / 2 : ℚ) : ℝ) := by
    constructor
    · intro h
      push_cast
      linarith
    · intro h
      push_cast at h
      linarith
  have hcr : (0 : ℝ) ≤ 100 - (c : ℝ) := by exact_mod_cast hc
  rw [key, Real.sqrt_le_left (by push_cast; linarith)]
  constructor
  · intro h
    exact_mod_cast h
  · intro h
    exact_mod_cast h

/-- Correctness of the decidable score comparison: `Score.leB` compares the
represented real values. -/
theorem Score.leB_toReal (s t : Score) :
    Score.leB s t = true ↔ s.toReal ≤ t.toReal := by
  rcases s with x | v <;> rcases t with y | w
  · rw [Score.toReal_dist_eq, Score.toReal_dist_eq]
    simp only [Score.leB, decide_eq_true_eq]
    constructor
    · intro h
      have := Real.sqrt_le_sqrt
        (show ((min (max y 0) 2500 : ℚ) : ℝ) ≤ ((min (max x 0) 2500 : ℚ) : ℝ) by
          exact_mod_cast h)
      linarith
    · intro h
      have h1 : Real.sqrt ((min (max y 0) 2500 : ℚ) : ℝ)
          ≤ Real.sqrt ((min (max x 0) 2500 : ℚ) : ℝ) := by linarith
      have h2 := (Real.sqrt_le_sqrt_iff
        (show (0 : ℝ) ≤ ((min (max x 0) 2500 : ℚ) : ℝ) by
          exact_mod_cast truncRadicand_nonneg x)).mp h1
      exact_mod_cast h2
  · rw [Score.toReal_dist_eq]
    have hs0 : 0 ≤ Real.sqrt ((min (max x 0) 2500 : ℚ) : ℝ) := Real.sqrt_nonneg _
    have hs50 := sqrt_truncRadicand_le x
    simp only [Score.leB, Score.toReal]
    by_cases h100 : (100 : ℚ) ≤ w
    · rw [if_pos h100]
      have hw : (100 : ℝ) ≤ (w : ℝ) := by exact_mod_cast h100
      simp only [true_iff]
      linarith
    · rw [if_neg h100]
      push_neg at h100
      by_cases hneg : w < 0
      · rw [if_pos hneg]
        have hw : (w : ℝ) < 0 := by exact_mod_cast hneg
        constructor
        · intro hfalse
          exact absurd hfalse (by norm_num)
        · intro hle
          linarith
      · rw [if_neg hneg]
        push_neg at hneg
        simp only [decide_eq_true_eq]
        rw [clamp_le_const_iff _ _ (truncRadicand_nonneg x) hneg h100]
        have hsq : (0 : ℚ) ≤ (100 - w) ^ 2 := sq_nonneg _
        have hsq' : ((100 - w) ^ 2 : ℚ) ≤ 10000 := by nlinarith
        have hmin : (4 : ℚ) * min (max x 0) 2500 = min (4 * max x 0) 10000 := by
          rcases le_total (max x 0) 2500 with h | h
          · rw [min_eq_left h, min_eq_left (by nlinarith)]
          · rw [min_eq_right h, min_eq_right (by nlinarith)]
            norm_num
        rw [hmin, le_min_iff]
        constructor
        · intro h
          exact ⟨h, hsq'⟩
        · intro h
          exact h.1
  · rw [Score.toReal_dist_eq]
    have hs0 : 0 ≤ Real.sqrt ((min (max y 0) 2500 : ℚ) : ℝ) := Real.sqrt_nonneg _
    have hs50 := sqrt_truncRadicand_le y
    simp only [Score.leB, Score.toReal]
    by_cases h0 : v ≤ 0
    · rw [if_pos h0]
      have hv : (v : ℝ) ≤ 0 := by exact_mod_cast h0
      simp only [true_iff]
      linarith
    · rw [if_neg h0]
      push_neg at h0
      by_cases h100 : 100 < v
      · rw [if_pos h100]
        have hv : (100 : ℝ) < (v : ℝ) := by exact_mod_cast h100
        constructor
        · intro hfalse
          exact absurd hfalse (by norm_num)
        · intro hle
          linarith
      · rw [if_neg h100]
        push_neg at h100
        simp only [decide_eq_true_eq]
        rw [const_le_clamp_iff _ _ (by linarith)]
        have hq : ((100 - v) / 2 : ℚ) ^ 2 < 2500 := by nlinarith
        have hmin : min (max y 0) 2500 ≤ ((100 - v) / 2 : ℚ) ^ 2
            ↔ max y 0 ≤ ((100 - v) / 2 : ℚ) ^ 2 := by
          rw [min_le_iff]
          constructor
          · intro h
            rcases h with h | h
            · exact h
            · linarith
          · intro h
            exact Or.inl h
        rw [hmin]
        constructor
        · intro h
          nlinarith [le_max_right y 0, le_max_left y 0]
        · intro h
          nlinarith
  · simp only [Score.leB, Score.toReal, decide_eq_true_eq]
    constructor
    · intro h
      exact_mod_cast h
    · intro h
      exact_mod_cast h

/-- `Score.le` is comparison of the represented real values. -/
theorem Score.le_iff_toReal (s t : Score) :
    Score.le s t ↔ s.toReal ≤ t.toReal := by
  rw [Score.le, Score.leB_toReal]

/-- `Score.lt` is strict comparison of the represented real values. -/
theorem Score.lt_iff_toReal (s t : Score) :
    Score.lt s t ↔ s.toReal < t.toReal := by
  rw [Score.lt, Bool.eq_false_iff, Ne, Score.leB_toReal t s, not_le]

/-- The value of a distance score at an exact square in range. -/
theorem Score.toReal_dist_of_sq (d : ℚ) (h0 : 0 ≤ d) (h50 : d ≤ 50) :
    (Score.dist (d ^ 2)).toReal = 100 - 2 * (d : ℝ) := by
  rw [Score.toReal_dist_eq]
  have h1 : min (max (d ^ 2) 0) 2500 = d ^ 2 := by
    rw [max_eq_left (sq_nonneg d), min_eq_left (by nlinarith)]
  rw [h1]
  have : ((d ^ 2 : ℚ) : ℝ) = (d : ℝ) ^ 2 := by push_cast; ring
  rw [this, Real.sqrt_sq (by exact_mod_cast h0)]


/-! ## Concrete pipeline evaluations

The distance `dEuclid1` (sum of absolute coordinate differences) agrees
with the Euclidean ΔE on every pair of colors that differ in at most one
LAB coordinate, which covers every color arising in the fixtures below; it
therefore instantiates the abstract `dE` parameter faithfully for them. -/

set_option maxHeartbeats 4000000 in
/-- The full binary pass on the three-gray catalog, in final sorted order. -/
theorem c2_binary_eval : findBinaryMixes dEuclid1 c2target c2cat =
    [c2binr grayA grayC (1/2) 100 50, c2binr grayA grayB (3/10) 95 51,
     c2binr grayA grayB (2/5) 90 48, c2binr grayA grayB (1/5) 80 54,
     c2binr grayA grayC (2/5) 80 54, c2binr grayA grayC (3/5) 80 46,
     c2binr grayA grayB (1/2) 75 45, c2binr grayA grayB (1/10) 65 57,
     c2binr grayA grayB (3/5) 60 42, c2binr grayA grayC (3/10) 60 58,
     c2binr grayA grayC (7/10) 60 42, c2binr grayA grayB (7/10) 45 39,
     c2binr grayB grayC (9/10) 45 61, c2binr grayA grayC (1/5) 40 62,
     c2binr grayA grayC (4/5) 40 38, c2binr grayB grayC (4/5) 40 62,
     c2binr grayB grayC (7/10) 35 63, c2binr grayA grayB (4/5) 30 36,
     c2binr grayB grayC (3/5) 30 64, c2binr grayB grayC (1/2) 25 65] := by
  have hw : ∀ p ∈ c2cat, (jsIncl (jsLower p.name) "white") = false := by decide
  have hb : ∀ p ∈ c2cat, (jsIncl (jsLower p.name) "black") = false := by decide
  norm_num [findBinaryMixes, c2cat, c2target, grayA, grayB, grayC,
    binaryOuterLoop, binaryPairLoop, binaryWhiteStep, binaryBlackStep,
    MAX_ATTEMPTS, binaryRatios, mkBinaryRecipe, adjustRatioForTintingStrength,
    tintingStrengthToNumeric, estimateMixedColor, mixLab2, scaleChroma,
    binaryDullingFactor, opacityToNumeric, dEuclid1, deltaEToPercentage,
    c2binr, sortRecipes, List.insertionSort, List.orderedInsert, recGE,
    abs_of_nonneg, abs_of_nonpos]

set_option maxHeartbeats 4000000 in
/-- The full ternary pass on the three-gray catalog. -/
theorem c2_ternary_eval : findTernaryMixes dEuclid1 c2target c2cat =
    [c2tern (2/5) (2/5) (1/5) 100 50, c2tern (3/5) (3/10) (1/10) 90 52,
     c2tern (1/2) (3/10) (1/5) 85 53,
     c2tern (33/100) (33/100) (17/50) (165/2) (107/2),
     c2tern (7/10) (1/5) (1/10) 75 55] := by
  norm_num [findTernaryMixes, c2cat, c2target, grayA, grayB, grayC,
    ternaryOuterLoop, ternaryJLoop, ternaryKLoop, ternaryWhiteLoop,
    MAX_ATTEMPTS, ternaryRatioSets, mkTernaryRecipe,
    tintingStrengthToNumeric, estimateTernaryMixedColor, mixLab3, scaleChroma,
    ternaryDullingFactor, opacityToNumeric, dEuclid1, deltaEToPercentage,
    c2tern, paintCloser, sortRecipes, List.insertionSort, List.orderedInsert,
    recGE, List.find?, abs_of_nonneg, abs_of_nonpos]

/-- The single-paint pass on the three-gray catalog. -/
theorem c2_singles_eval : findSinglePaintMatches dEuclid1 c2target c2cat =
    [c2single grayB 50 60, c2single grayA 0 30, c2single grayC 0 70] := by
  norm_num [findSinglePaintMatches, c2cat, c2target, grayA, grayB, grayC,
    dEuclid1, deltaEToPercentage, c2single, sortRecipes, List.insertionSort,
    List.orderedInsert, recGE, abs_of_nonneg, abs_of_nonpos]

set_option maxHeartbeats 8000000 in
/-- The full pipeline on the three-gray catalog: the best binary recipe
reaches 100%, and a three-paint recipe is nevertheless in the output. -/
theorem c2_final_eval :
    findOptimalPaintMixture dEuclid1 (some c2target) (some c2cat) =
    [c2binr grayA grayC (1/2) 100 50, c2tern (2/5) (2/5) (1/5) 100 50,
     c2binr grayA grayB (3/10) 95 51, c2single grayB 50 60,
     c2binr grayB grayC (9/10) 45 61] := by
  have hs := c2_singles_eval
  have hbn := c2_binary_eval
  have ht := c2_ternary_eval
  norm_num +decide [findOptimalPaintMixture, hs, hbn, ht, c2single, c2binr,
    c2tern, grayA, grayB, grayC, sortRecipes, List.insertionSort,
    List.orderedInsert, recGE, removeRedundantRecipes, dedupStep, idMultiset]

set_option maxHeartbeats 2000000 in
/-- The full pipeline on the one-white-paint catalog: the degenerate
white-white binary recipe survives deduplication because its id multiset
{w1, w1} differs from the single recipe id multiset {w1}. -/
theorem c4_pipeline_eval :
    findOptimalPaintMixture dEuclid1 (some c4target) (some [wPaint])
    = [c4rec1, c4bin (1/10)] := by
  have hw : (jsIncl (jsLower wPaint.name) "white") = true := by decide
  have hb : (jsIncl (jsLower wPaint.name) "black") = false := by decide
  have hs : findSinglePaintMatches dEuclid1 c4target [wPaint] = [c4rec1] := by
    norm_num [findSinglePaintMatches, wPaint, c4target, c4rec1, dEuclid1,
      deltaEToPercentage, sortRecipes, List.insertionSort, List.orderedInsert]
  have hbn : findBinaryMixes dEuclid1 c4target [wPaint] =
      [c4bin (1/10), c4bin (2/10), c4bin (3/10), c4bin (4/10), c4bin (5/10),
       c4bin (6/10), c4bin (7/10), c4bin (8/10), c4bin (9/10)] := by
    norm_num [findBinaryMixes, wPaint, c4target, hw, hb, binaryOuterLoop,
      binaryPairLoop, binaryWhiteStep, binaryBlackStep, MAX_ATTEMPTS,
      binaryRatios, mkBinaryRecipe, adjustRatioForTintingStrength,
      tintingStrengthToNumeric, estimateMixedColor, mixLab2, scaleChroma,
      binaryDullingFactor, opacityToNumeric, dEuclid1, deltaEToPercentage,
      c4bin, sortRecipes, List.insertionSort, List.orderedInsert, recGE]
  have ht : findTernaryMixes dEuclid1 c4target [wPaint] = [] := by
    norm_num [findTernaryMixes, wPaint, c4target, hw, ternaryOuterLoop,
      ternaryJLoop, ternaryWhiteLoop, MAX_ATTEMPTS, paintCloser,
      sortRecipes, List.insertionSort, List.orderedInsert]
  have hdd : ∀ r r2 : ℚ, (idMultiset (c4bin r) = idMultiset (c4bin r2)) = True := by
    intro r r2
    simp [idMultiset, c4bin]
  norm_num [findOptimalPaintMixture, hs, hbn, ht, c4rec1, c4bin,
    sortRecipes, List.insertionSort, List.orderedInsert, recGE,
    removeRedundantRecipes, dedupStep, hdd, idMultiset]

set_option maxHeartbeats 4000000 in
/-- The context-provider pipeline on the dark three-paint catalog: the
chromatic-black fixup recipe is promoted ahead of the strictly
better-scoring single-paint match. -/
theorem c8_eval : findPaintMixtures dEuclid1 oracle0 c8cat c8target
    = [c8chrom, c8single] := by
  have hfilter : List.filter (fun p => p.lab.isSome) c8cat
      = [ggPaint, ubPaint, umPaint] := by decide
  have hdgg : dist2 (⟨32, 0, 0⟩ : LAB) c8target = 4 := by
    norm_num [dist2, c8target]
  have hdum : dist2 (⟨0, 0, 0⟩ : LAB) c8target = 900 := by
    norm_num [dist2, c8target]
  have hdub : dist2 (⟨80, 0, 0⟩ : LAB) c8target = 2500 := by
    norm_num [dist2, c8target]
  have g1 : Score.gtB (Score.dist 4) (Score.const 50) = true := by
    norm_num [Score.gtB, Score.leB, max_def]
  have g2 : Score.gtB (Score.dist 900) (Score.const 50) = false := by
    norm_num [Score.gtB, Score.leB, max_def]
  have g3 : Score.gtB (Score.dist 2500) (Score.const 50) = false := by
    norm_num [Score.gtB, Score.leB, max_def]
  have hsingles : pcSingleRecipes c8target [ggPaint, umPaint, ubPaint]
      = [c8single0] := by
    simp [pcSingleRecipes, ggPaint, ubPaint, umPaint, hdgg, hdum, hdub,
      g1, g2, g3, c8single0]
  have hcb : findChromaticBlackPairs [ggPaint, ubPaint, umPaint] = ⟨[], [], []⟩ := by
    decide
  have hbrandOrder : brandOrder [ggPaint, ubPaint, umPaint] = ["X", "Y", "Z"] := by
    decide
  have hfX : List.filter (fun p => p.brand == "X") [ggPaint, ubPaint, umPaint]
      = [ggPaint] := by decide
  have hfY : List.filter (fun p => p.brand == "Y") [ggPaint, ubPaint, umPaint]
      = [ubPaint] := by decide
  have hfZ : List.filter (fun p => p.brand == "Z") [ggPaint, ubPaint, umPaint]
      = [umPaint] := by decide
  have hbrand : ∀ p : Paint, pcBrandRecipes oracle0 c8target
      (getColorTemperature c8target) ⟨[], [], []⟩ true [p] = [] := by
    intro p
    simp [pcBrandRecipes]
  have hsort1 : List.insertionSort pcGE [c8single0] = [c8single0] := by
    simp [List.insertionSort, List.orderedInsert]
  have hdd : pcDedup [c8single0] [] [] = [c8single0] := by
    simp [pcDedup]
  have hdm : hasDirectMatchB [c8single0] = true := by decide
  have hch : hasChromaticB [c8single0] = false := by decide
  have hfu : List.find? (fun p => jsIncl (jsLower p.name) "ultramarine"
      || jsIncl (jsLower p.name) "phthalo") [ggPaint, ubPaint, umPaint]
      = some ubPaint := by decide
  have hfc : List.find? (fun p => jsIncl (jsLower p.name) "umber"
      || jsIncl (jsLower p.name) "crimson") [ggPaint, ubPaint, umPaint]
      = some umPaint := by decide
  have had1 : assignDescription oracle0 c8single0 = c8single := by
    simp [assignDescription, c8single0, c8single]
  have had2 : assignDescription oracle0
      (⟨[⟨ubPaint, 1/2⟩, ⟨umPaint, 1/2⟩], Score.dist 100, some ⟨40, 0, 0⟩,
        some "Chromatic black mixture (richer, more natural darks)"⟩ : PCRecipe)
      = c8chrom := by
    simp [assignDescription, c8chrom]
  have hd2 : jsIncl "Direct match with a single paint" "Chromatic black"
      = false := by decide
  have hd1 : jsIncl "Chromatic black mixture (richer, more natural darks)"
      "Chromatic black" = true := by decide
  have hnf : ¬ pcFinalLE c8single c8chrom := by
    simp [pcFinalLE, descIncl, c8single, c8chrom, hd1, hd2]
  have hdmix : dist2 (⟨40, 0, 0⟩ : LAB) c8target = 100 := by
    norm_num [dist2, c8target]
  have hlen : c8cat.length = 3 := by decide
  have hdL : c8target.L = 30 := rfl
  have hul : ubPaint.lab.getD ⟨0, 0, 0⟩ = ⟨80, 0, 0⟩ := rfl
  have hum : umPaint.lab.getD ⟨0, 0, 0⟩ = ⟨0, 0, 0⟩ := rfl
  have hc1 : ¬ pcCloser c8target ubPaint umPaint := by
    norm_num [pcCloser, dist2, ubPaint, umPaint, c8target]
  have hc2 : pcCloser c8target ggPaint umPaint := by
    norm_num [pcCloser, dist2, ggPaint, umPaint, c8target]
  have hdark : decide (c8target.L < 40) = true := by
    norm_num [c8target]
  norm_num [findPaintMixtures, hlen, hfilter, hc1, hc2, hdark, hsingles,
    hcb, hbrandOrder, hfX, hfY, hfZ, hbrand, hsort1, hdd, hdm, hch, hfu,
    hfc, hul, hum, hdmix, had1, had2, hnf]

end Chiaroscuro

namespace Chiaroscuro

theorem takeDedupSort_eq_nil_iff (l : List MixingRecipe) :
    (removeRedundantRecipes (sortRecipes l)).take 5 = [] ↔ l = [] := by
  rw [List.take_eq_nil_iff]
  constructor
  · rintro (h | h)
    · norm_num at h
    · by_contra hl
      exact removeRedundantRecipes_ne_nil
        (fun hc => hl (sortRecipes_eq_nil_iff.mp hc)) h
  · intro h
    subst h
    right
    simp [sortRecipes, removeRedundantRecipes]

theorem findOptimalPaintMixture_eq_nil_iff (dE : LAB → LAB → ℚ) (target : LAB)
    (ps : List Paint) (mc : Nat) :
    findOptimalPaintMixture dE (some target) (some ps) mc = []
      ↔ ∀ p ∈ ps, p.lab = none := by
  simp only [findOptimalPaintMixture]
  split
  · rename_i h
    have hnil : ps = [] := List.length_eq_zero.mp h
    subst hnil
    simp
  · split
    · rw [List.take_eq_nil_iff]
      rw [findSinglePaintMatches_eq_nil_iff dE target ps]
      constructor
      · rintro (h | h)
        · norm_num at h
        · exact h
      · intro h
        right
        exact h
    · rw [takeDedupSort_eq_nil_iff]
      constructor
      · intro h
        rw [← findSinglePaintMatches_eq_nil_iff dE target ps]
        split at h
        all_goals split at h
        all_goals try simp only [List.append_eq_nil] at h
        all_goals tauto
      · intro h
        have hs : findSinglePaintMatches dE target ps = [] :=
          (findSinglePaintMatches_eq_nil_iff dE target ps).mpr h
        have hb : findBinaryMixes dE target ps = [] :=
          findBinaryMixes_eq_nil dE target ps h
        have ht : findTernaryMixes dE target ps = [] :=
          findTernaryMixes_eq_nil dE target ps h
        simp [hs, hb, ht]

end Chiaroscuro

namespace Chiaroscuro

theorem pcTake5_ne_nil (M : MathOracle) (l : List PCRecipe) (h : l ≠ []) :
    ((l.map (assignDescription M)).insertionSort pcFinalLE).take 5 ≠ [] := by
  intro hc
  rw [List.take_eq_nil_iff] at hc
  rcases hc with hc | hc
  · norm_num at hc
  · have h2 := List.perm_insertionSort pcFinalLE (l.map (assignDescription M))
    rw [hc] at h2
    exact h (List.map_eq_nil_iff.mp h2.symm.eq_nil)

theorem findPaintMixtures_ne_nil (dE : LAB → LAB → ℚ) (M : MathOracle)
    (ps : List Paint) (t : LAB) : findPaintMixtures dE M ps t ≠ [] := by
  rw [findPaintMixtures]
  split
  · simp
  lift_lets
  extract_lets paintsWithLab
  split
  · simp
  lift_lets
  extract_lets sortedPaints targetTemperature chromaticBlacks isDarkColor
    singleRecipes brandRecipes finalRecipes uniqueRecipes uniqueRecipes2
    uniqueRecipes3 uniqueRecipes4 recipesWithDescriptions
  have hu : uniqueRecipes2 ≠ [] := by
    unfold_let uniqueRecipes2
    split
    · cases hh : sortedPaints.head? <;> simp
    · split
      · simp
      · rename_i hlen
        intro hc
        rw [hc] at hlen
        simp at hlen
  have hu3 : uniqueRecipes3 ≠ [] := by
    unfold_let uniqueRecipes3
    split
    · cases hh : sortedPaints.head? <;> simp
      exact hu
    · exact hu
  unfold_let recipesWithDescriptions
  apply pcTake5_ne_nil
  unfold_let uniqueRecipes4
  split
  · cases h1 : paintsWithLab.find? fun p =>
        jsIncl (jsLower p.name) "ultramarine" || jsIncl (jsLower p.name) "phthalo" <;>
      cases h2 : paintsWithLab.find? fun p =>
        jsIncl (jsLower p.name) "umber" || jsIncl (jsLower p.name) "crimson" <;>
      simp <;> exact hu3
  · exact hu3

end Chiaroscuro

namespace Chiaroscuro

/-- C6: The specified empty/null-input behaviour, corrected.  A missing
target or catalog does yield an empty list from `findOptimalPaintMixture`
without raising, but the returned list is empty exactly when every
catalog paint lacks a LAB value — a strictly wider condition than "the
catalog itself is empty" — and the context provider `findPaintMixtures`
never returns an empty list at all: an empty catalog produces the fallback
recipe. -/
theorem C6_empty_guard :
    (∀ (dE : LAB → LAB → ℚ) (mc : Nat) (c : Option (List Paint)),
      findOptimalPaintMixture dE none c mc = [])
    ∧ (∀ (dE : LAB → LAB → ℚ) (mc : Nat) (tg : Option LAB),
      findOptimalPaintMixture dE tg none mc = [])
    ∧ (∀ (dE : LAB → LAB → ℚ) (target : LAB) (ps : List Paint) (mc : Nat),
      findOptimalPaintMixture dE (some target) (some ps) mc = []
        ↔ ∀ p ∈ ps, p.lab = none)
    ∧ (∀ (dE : LAB → LAB → ℚ) (M : MathOracle) (t : LAB),
      findPaintMixtures dE M [] t = [fallbackRecipe])
    ∧ (∀ (dE : LAB → LAB → ℚ) (M : MathOracle) (ps : List Paint) (t : LAB),
      findPaintMixtures dE M ps t ≠ []) := by
  refine ⟨?_, ?_, ?_, ?_, ?_⟩
  · intro dE mc c
    cases c <;> rfl
  · intro dE mc tg
    cases tg <;> rfl
  · intro dE target ps mc
    exact findOptimalPaintMixture_eq_nil_iff dE target ps mc
  · intro dE M t
    rw [findPaintMixtures]
    simp
  · exact findPaintMixtures_ne_nil

/-- Witness for C6 at concrete inputs. -/
theorem C6_empty_guard_witness :
    findOptimalPaintMixture dEuclid1 none (some c2cat) 3 = []
    ∧ (findOptimalPaintMixture dEuclid1 (some c2target) (some [noLabPaint]) 3 = []
        ↔ ∀ p ∈ [noLabPaint], p.lab = none)
    ∧ findPaintMixtures dEuclid1 oracle0 [] c2target ≠ [] :=
  ⟨C6_empty_guard.1 dEuclid1 3 (some c2cat),
   C6_empty_guard.2.2.1 dEuclid1 c2target [noLabPaint] 3,
   C6_empty_guard.2.2.2.2 dEuclid1 oracle0 [] c2target⟩

/-- C6 counterexample: a nonempty catalog whose only paint has no LAB value
yields an empty list (so "empty only for an empty catalog" fails), and the
context provider returns the fallback recipe, not an empty list, on an
empty catalog. -/
theorem C6_counterexample :
    findOptimalPaintMixture dEuclid1 (some c2target) (some [noLabPaint]) = []
    ∧ [noLabPaint] ≠ ([] : List Paint)
    ∧ findPaintMixtures dEuclid1 oracle0 [] c2target = [fallbackRecipe]
    ∧ [fallbackRecipe] ≠ ([] : List PCRecipe) := by
  refine ⟨?_, by simp, ?_, by simp⟩
  · rw [findOptimalPaintMixture_eq_nil_iff]
    decide
  · rw [findPaintMixtures]
    simp

end Chiaroscuro

namespace Chiaroscuro

/-- C5: the near-perfect short-circuit.  If the best single-paint candidate
scores above 98, the search returns exactly the first five single-paint
recipes, and every returned recipe is a one-paint recipe. -/
theorem C5_shortcircuit (dE : LAB → LAB → ℚ) (target : LAB) (ps : List Paint)
    (mc : Nat) (r0 : MixingRecipe)
    (h1 : (findSinglePaintMatches dE target ps).head? = some r0)
    (h2 : 98 < r0.matchPercentage) :
    findOptimalPaintMixture dE (some target) (some ps) mc
      = (findSinglePaintMatches dE target ps).take 5
    ∧ ∀ r ∈ findOptimalPaintMixture dE (some target) (some ps) mc,
        r.paints.length = 1 := by
  have hps : ¬ ps.length = 0 := by
    intro h0
    have h0' : ps = [] := List.length_eq_zero.mp h0
    subst h0'
    have hnil : findSinglePaintMatches dE target [] = [] :=
      (findSinglePaintMatches_eq_nil_iff dE target []).mpr (by simp)
    rw [hnil] at h1
    simp at h1
  have hsc : (match (findSinglePaintMatches dE target ps).head? with
      | some r1 => decide (98 < r1.matchPercentage)
      | none => false) = true := by
    rw [h1]
    simpa using h2
  have heq : findOptimalPaintMixture dE (some target) (some ps) mc
      = (findSinglePaintMatches dE target ps).take 5 := by
    simp only [findOptimalPaintMixture]
    rw [if_neg hps, if_pos hsc]
  refine ⟨heq, ?_⟩
  intro r hr
  rw [heq] at hr
  exact (findSinglePaintMatches_mem dE target ps r (List.take_subset _ _ hr)).1

/-- Witness for C5: an exact catalog match scores 100 > 98 and
short-circuits. -/
theorem C5_shortcircuit_witness :
    findOptimalPaintMixture dEuclid1 (some ⟨10, 20, 30⟩) (some [exactPaint])
      = (findSinglePaintMatches dEuclid1 ⟨10, 20, 30⟩ [exactPaint]).take 5
    ∧ ∀ r ∈ findOptimalPaintMixture dEuclid1 (some ⟨10, 20, 30⟩)
        (some [exactPaint]), r.paints.length = 1 := by
  have h1 : (findSinglePaintMatches dEuclid1 ⟨10, 20, 30⟩ [exactPaint]).head?
      = some ⟨[⟨exactPaint, 1⟩], 100, ⟨10, 20, 30⟩⟩ := by
    norm_num [findSinglePaintMatches, exactPaint, dEuclid1, deltaEToPercentage,
      sortRecipes, List.insertionSort, List.orderedInsert]
  exact C5_shortcircuit dEuclid1 ⟨10, 20, 30⟩ [exactPaint] 3
    ⟨[⟨exactPaint, 1⟩], 100, ⟨10, 20, 30⟩⟩ h1 (by norm_num)

/-- C2 corrected: the ternary gate tests the best recipe *after the
single- and binary passes were already merged in source order*, whose head
is the best single-paint candidate, not the binary best.  Whenever the best
single-paint candidate scores at least 90, no three-paint recipe is
returned. -/
theorem C2_ternary_gate (dE : LAB → LAB → ℚ) (target : LAB) (ps : List Paint)
    (mc : Nat) (r0 : MixingRecipe)
    (h1 : (findSinglePaintMatches dE target ps).head? = some r0)
    (h2 : 90 ≤ r0.matchPercentage) :
    ∀ r ∈ findOptimalPaintMixture dE (some target) (some ps) mc,
      r.paints.length ≤ 2 := by
  intro r hr
  simp only [findOptimalPaintMixture] at hr
  split at hr
  · simp at hr
  split at hr
  · have := (findSinglePaintMatches_mem dE target ps r
      (List.take_subset _ _ hr)).1
    omega
  · have hgateFalse : ((match (if 2 ≤ mc then
        findSinglePaintMatches dE target ps ++ findBinaryMixes dE target ps
        else findSinglePaintMatches dE target ps).head? with
        | none => true
        | some r1 => decide (r1.matchPercentage < 90)) : Bool) = false := by
      by_cases hmc : 2 ≤ mc
      · rw [if_pos hmc, List.head?_append, h1]
        simp only [Option.or]
        rw [decide_eq_false_iff_not]
        linarith
      · rw [if_neg hmc, h1]
        rw [decide_eq_false_iff_not]
        linarith
    rw [if_neg (by simp [hgateFalse])] at hr
    have hr2 := mem_sortRecipes.mp
      ((removeRedundantRecipes_sublist _).subset (List.take_subset _ _ hr))
    by_cases hmc : 2 ≤ mc
    · rw [if_pos hmc] at hr2
      rcases List.mem_append.mp hr2 with h | h
      · have := (findSinglePaintMatches_mem dE target ps r h).1
        omega
      · have := (findBinaryMixes_mem dE target ps r h).1
        omega
    · rw [if_neg hmc] at hr2
      have := (findSinglePaintMatches_mem dE target ps r hr2).1
      omega

/-- Witness for C2: a one-unit-off catalog paint scores 95 ∈ [90, 98] and
suppresses the ternary pass. -/
theorem C2_ternary_gate_witness :
    (90 : ℚ) ≤ 95
    ∧ ∀ r ∈ findOptimalPaintMixture dEuclid1 (some ⟨10, 20, 30⟩)
        (some [closePaint]) 3, r.paints.length ≤ 2 := by
  have h1 : (findSinglePaintMatches dEuclid1 ⟨10, 20, 30⟩ [closePaint]).head?
      = some ⟨[⟨closePaint, 1⟩], 95, ⟨11, 20, 30⟩⟩ := by
    norm_num [findSinglePaintMatches, closePaint, dEuclid1, deltaEToPercentage,
      sortRecipes, List.insertionSort, List.orderedInsert]
  exact ⟨by norm_num, C2_ternary_gate dEuclid1 ⟨10, 20, 30⟩ [closePaint] 3
    ⟨[⟨closePaint, 1⟩], 95, ⟨11, 20, 30⟩⟩ h1 (by norm_num)⟩

/-- C2 counterexample: on the three-gray catalog the best binary recipe
scores a perfect 100 ≥ 90, yet the returned list contains a three-paint
ternary recipe (the gate reads the best *single-paint* score, 50). -/
theorem C2_counterexample :
    (findBinaryMixes dEuclid1 c2target c2cat).head?
      = some (c2binr grayA grayC (1/2) 100 50)
    ∧ (90 : ℚ) ≤ (c2binr grayA grayC (1/2) 100 50).matchPercentage
    ∧ c2tern (2/5) (2/5) (1/5) 100 50
        ∈ findOptimalPaintMixture dEuclid1 (some c2target) (some c2cat)
    ∧ (c2tern (2/5) (2/5) (1/5) 100 50).paints.length = 3 := by
  refine ⟨?_, by norm_num [c2binr], ?_, by simp [c2tern]⟩
  · rw [c2_binary_eval]
    rfl
  · rw [c2_final_eval]
    simp

end Chiaroscuro

namespace Chiaroscuro

theorem zipZeroMembers (colors : List RGBi) :
    (((colors.zip (colors.map fun _ => (0 : Nat))).filter
      fun p => p.2 == 0).map fun p => p.1) = colors := by
  induction colors with
  | nil => rfl
  | cons c t ih =>
    rw [List.map_cons, List.zip_cons_cons, List.filter_cons]
    have hc : (((c, (0 : Nat)).2) == 0) = true := rfl
    rw [hc, if_pos rfl, List.map_cons, ih]

theorem clusterColors_k1 (rand : ℕ → ℕ) (colors : List RGBi)
    (h : colors ≠ []) :
    clusterColors rand colors 1 = [⟨roundedMeanRGB colors, colors.length⟩] := by
  have hlen : ¬ colors.length = 0 := fun hc => h (List.length_eq_zero.mp hc)
  have hpos : 0 < colors.length := Nat.pos_of_ne_zero hlen
  have hr1 : List.range 1 = [0] := rfl
  have hmap : colors.map (nearestCluster [jsPick rand 0 colors])
      = colors.map (fun _ => 0) := by
    apply List.map_congr_left
    intro a _
    simp [nearestCluster, nearestAux]
  have hupd : updateCentroids rand colors (colors.map fun _ => 0) 1 1
      = ([roundedMeanRGB colors], 1) := by
    simp only [updateCentroids, hr1, List.foldl_cons, List.foldl_nil]
    rw [zipZeroMembers, if_pos hpos]
    simp
  have hloop : kmeansLoop rand colors 1 10 [jsPick rand 0 colors]
      (colors.map fun _ => 0) 1
      = ([roundedMeanRGB colors], colors.map fun _ => 0) := by
    rw [show (10 : Nat) = 9 + 1 from rfl, kmeansLoop, hmap, if_neg (by simp),
      hupd]
  have hcount : (colors.map fun _ => (0 : Nat)).count 0 = colors.length := by
    rw [List.map_const']
    exact List.count_replicate_self 0 colors.length
  simp only [clusterColors]
  rw [if_neg hlen, hr1]
  simp only [List.map_cons, List.map_nil]
  rw [hloop, hcount]
  simp [List.filter_cons, hpos]

end Chiaroscuro

namespace Chiaroscuro

/-- C9 corrected: with K = 1 the clustering returns a single cluster whose
member count is the sample count, but whose centroid is the per-channel
*rounded* arithmetic mean (`Math.round` of the mean), not the exact mean. -/
theorem C9_kmeans_mean (rand : ℕ → ℕ) (colors : List RGBi) (h : colors ≠ []) :
    clusterColors rand colors 1 = [⟨roundedMeanRGB colors, colors.length⟩] :=
  clusterColors_k1 rand colors h

/-- Witness for C9 at the two-sample fixture. -/
theorem C9_kmeans_mean_witness :
    clusterColors rand0 c9colors 1
      = [⟨roundedMeanRGB c9colors, c9colors.length⟩] :=
  C9_kmeans_mean rand0 c9colors (by decide)

/-- C9 counterexample: for the samples (0,0,0), (1,1,1) the returned
centroid is (1,1,1) (the rounded mean, 0.5 rounding up), which is not the
arithmetic mean: 2·1 ≠ 0+1 per channel. -/
theorem C9_counterexample :
    clusterColors rand0 c9colors 1 = [⟨⟨1, 1, 1⟩, 2⟩]
    ∧ (2 : ℤ) * 1 ≠ 0 + 1 := by
  constructor
  · rw [clusterColors_k1 rand0 c9colors (by decide)]
    norm_num [roundedMeanRGB, c9colors, jsRound]
  · decide

end Chiaroscuro

namespace Chiaroscuro

theorem opacityToNumeric_bounds (o : Opacity) :
    1/4 ≤ opacityToNumeric o ∧ opacityToNumeric o ≤ 1 := by
  cases o <;> norm_num [opacityToNumeric]

theorem dEuclid1_nonneg (x y : LAB) : 0 ≤ dEuclid1 x y := by
  unfold dEuclid1
  positivity

/-- C3 corrected: the dulling factor of the two-paint estimate uses the
*minimum* opacity (base rate 0.3), the three-paint estimate the *mean*
opacity (base rate 0.4) and the maximum pairwise ΔE; the factor multiplies
the `a` and `b` components together and leaves `L` unchanged. -/
theorem C3_dulling (dE : LAB → LAB → ℚ) (p1 p2 p3 : Paint) (l1 l2 l3 : LAB)
    (r r1 r2 r3 : ℚ) (h1 : p1.lab = some l1) (h2 : p2.lab = some l2)
    (h3 : p3.lab = some l3) :
    estimateMixedColor dE p1 p2 r
      = scaleChroma (mixLab2 l1 l2 r)
          (1 - dE l1 l2 / 100 * (3/10)
            * (1 - min (opacityToNumeric p1.opacity)
                (opacityToNumeric p2.opacity) * (1/2)))
    ∧ estimateTernaryMixedColor dE p1 p2 p3 r1 r2 r3
      = scaleChroma
          (mixLab3 l1 l2 l3 (r1 / (r1 + r2 + r3)) (r2 / (r1 + r2 + r3))
            (r3 / (r1 + r2 + r3)))
          (1 - max (dE l1 l2) (max (dE l1 l3) (dE l2 l3)) / 100 * (2/5)
            * (1 - (opacityToNumeric p1.opacity + opacityToNumeric p2.opacity
                + opacityToNumeric p3.opacity) / 3 * (1/2)))
    ∧ ∀ (lab : LAB) (f : ℚ), (scaleChroma lab f).L = lab.L
        ∧ (scaleChroma lab f).a = lab.a * f
        ∧ (scaleChroma lab f).b = lab.b * f := by
  refine ⟨?_, ?_, ?_⟩
  · simp [estimateMixedColor, h1, h2, binaryDullingFactor]
  · simp [estimateTernaryMixedColor, h1, h2, h3, ternaryDullingFactor]
  · intro lab f
    by_cases hc : 0 < lab.a * lab.a + lab.b * lab.b
    · simp [scaleChroma, hc]
    · have ha2 : lab.a * lab.a = 0 :=
        le_antisymm (by nlinarith [mul_self_nonneg lab.b]) (mul_self_nonneg lab.a)
      have hb2 : lab.b * lab.b = 0 :=
        le_antisymm (by nlinarith [mul_self_nonneg lab.a]) (mul_self_nonneg lab.b)
      have ha : lab.a = 0 := mul_self_eq_zero.mp ha2
      have hb : lab.b = 0 := mul_self_eq_zero.mp hb2
      simp [scaleChroma, hc, ha, hb]

/-- Witness for C3 at the opaque/transparent fixture pair. -/
theorem C3_dulling_witness :
    estimateMixedColor dEuclid1 cpOpaque cpTransparent (1/2)
      = scaleChroma (mixLab2 ⟨50, 10, 0⟩ ⟨50, 30, 0⟩ (1/2))
          (1 - dEuclid1 ⟨50, 10, 0⟩ ⟨50, 30, 0⟩ / 100 * (3/10)
            * (1 - min (opacityToNumeric cpOpaque.opacity)
                (opacityToNumeric cpTransparent.opacity) * (1/2))) :=
  (C3_dulling dEuclid1 cpOpaque cpTransparent cpOpaque ⟨50, 10, 0⟩
    ⟨50, 30, 0⟩ ⟨50, 10, 0⟩ (1/2) 1 1 1 rfl rfl rfl).1

/-- C3 counterexample: for an opaque/transparent pair the code's factor
(built from the *minimum* opacity) scales the averaged `a` component to
379/20, while the specified mean-opacity formula would give 767/40. -/
theorem C3_counterexample :
    (estimateMixedColor dEuclid1 cpOpaque cpTransparent (1/2)).a = 379/20
    ∧ specDullingFactor (dEuclid1 ⟨50, 10, 0⟩ ⟨50, 30, 0⟩) (3/10)
        ((opacityToNumeric cpOpaque.opacity
          + opacityToNumeric cpTransparent.opacity) / 2) * 20 = 767/40
    ∧ (379/20 : ℚ) ≠ 767/40 := by
  refine ⟨?_, ?_, by norm_num⟩
  · norm_num [estimateMixedColor, cpOpaque, cpTransparent, mixLab2,
      scaleChroma, binaryDullingFactor, dEuclid1, opacityToNumeric,
      abs_of_nonneg, abs_of_nonpos]
  · norm_num [specDullingFactor, dEuclid1, cpOpaque, cpTransparent,
      opacityToNumeric, abs_of_nonneg, abs_of_nonpos]

end Chiaroscuro

namespace Chiaroscuro

/-- C7 corrected: with a nonnegative ΔE the dulling factor is indeed always
≤ 1, but it can drop below −1 for extreme ΔE values, in which case the
rescaled chroma *exceeds* the straight linear-average chroma.  The
specified chroma bound does hold whenever every pairwise ΔE is at most 380
(comfortably above every CIELAB distance the app can produce). -/
theorem C7_chroma (dE : LAB → LAB → ℚ) (p1 p2 p3 : Paint) (l1 l2 l3 : LAB)
    (r r1 r2 r3 : ℚ) (h0 : ∀ x y, 0 ≤ dE x y)
    (h1 : p1.lab = some l1) (h2 : p2.lab = some l2) (h3 : p3.lab = some l3) :
    binaryDullingFactor dE p1 p2 l1 l2 ≤ 1
    ∧ ternaryDullingFactor dE p1 p2 p3 l1 l2 l3 ≤ 1
    ∧ (dE l1 l2 ≤ 380 →
        (estimateMixedColor dE p1 p2 r).a ^ 2
            + (estimateMixedColor dE p1 p2 r).b ^ 2
          ≤ (mixLab2 l1 l2 r).a ^ 2 + (mixLab2 l1 l2 r).b ^ 2)
    ∧ (dE l1 l2 ≤ 380 → dE l1 l3 ≤ 380 → dE l2 l3 ≤ 380 →
        (estimateTernaryMixedColor dE p1 p2 p3 r1 r2 r3).a ^ 2
            + (estimateTernaryMixedColor dE p1 p2 p3 r1 r2 r3).b ^ 2
          ≤ (mixLab3 l1 l2 l3 (r1 / (r1 + r2 + r3)) (r2 / (r1 + r2 + r3))
              (r3 / (r1 + r2 + r3))).a ^ 2
            + (mixLab3 l1 l2 l3 (r1 / (r1 + r2 + r3)) (r2 / (r1 + r2 + r3))
              (r3 / (r1 + r2 + r3))).b ^ 2) := by
  obtain ⟨ho1l, ho1u⟩ := opacityToNumeric_bounds p1.opacity
  obtain ⟨ho2l, ho2u⟩ := opacityToNumeric_bounds p2.opacity
  obtain ⟨ho3l, ho3u⟩ := opacityToNumeric_bounds p3.opacity
  have hd12 := h0 l1 l2
  have hd13 := h0 l1 l3
  have hd23 := h0 l2 l3
  have hminl : 1/4 ≤ min (opacityToNumeric p1.opacity)
      (opacityToNumeric p2.opacity) := le_min ho1l ho2l
  have hminu : min (opacityToNumeric p1.opacity)
      (opacityToNumeric p2.opacity) ≤ 1 :=
    le_trans (min_le_left _ _) ho1u
  have hmaxl : 0 ≤ max (dE l1 l2) (max (dE l1 l3) (dE l2 l3)) :=
    le_trans hd12 (le_max_left _ _)
  have hb1 : binaryDullingFactor dE p1 p2 l1 l2 ≤ 1 := by
    unfold binaryDullingFactor
    nlinarith [hd12, hminl, hminu]
  have ht1 : ternaryDullingFactor dE p1 p2 p3 l1 l2 l3 ≤ 1 := by
    unfold ternaryDullingFactor
    nlinarith [hmaxl, ho1l, ho2l, ho3l, ho1u, ho2u, ho3u]
  refine ⟨hb1, ht1, ?_, ?_⟩
  · intro hdle
    have hf2 : -1 ≤ binaryDullingFactor dE p1 p2 l1 l2 := by
      unfold binaryDullingFactor
      nlinarith [hd12, hminl, hminu, hdle]
    simp only [estimateMixedColor, h1, h2]
    by_cases hc : 0 < (mixLab2 l1 l2 r).a * (mixLab2 l1 l2 r).a
        + (mixLab2 l1 l2 r).b * (mixLab2 l1 l2 r).b
    · simp only [scaleChroma, if_pos hc]
      nlinarith [hb1, hf2, hc.le,
        mul_nonneg (sub_nonneg.2 hb1)
          (by linarith : (0:ℚ) ≤ binaryDullingFactor dE p1 p2 l1 l2 + 1),
        mul_self_nonneg (mixLab2 l1 l2 r).a,
        mul_self_nonneg (mixLab2 l1 l2 r).b]
    · simp only [scaleChroma, if_neg hc]
      exact le_rfl
  · intro hd1 hd2 hd3
    have hmaxu : max (dE l1 l2) (max (dE l1 l3) (dE l2 l3)) ≤ 380 :=
      max_le hd1 (max_le hd2 hd3)
    have hf2 : -1 ≤ ternaryDullingFactor dE p1 p2 p3 l1 l2 l3 := by
      unfold ternaryDullingFactor
      nlinarith [hmaxl, hmaxu, ho1l, ho2l, ho3l, ho1u, ho2u, ho3u]
    simp only [estimateTernaryMixedColor, h1, h2, h3]
    by_cases hc : 0 < (mixLab3 l1 l2 l3 (r1 / (r1 + r2 + r3))
          (r2 / (r1 + r2 + r3)) (r3 / (r1 + r2 + r3))).a
        * (mixLab3 l1 l2 l3 (r1 / (r1 + r2 + r3)) (r2 / (r1 + r2 + r3))
          (r3 / (r1 + r2 + r3))).a
        + (mixLab3 l1 l2 l3 (r1 / (r1 + r2 + r3)) (r2 / (r1 + r2 + r3))
          (r3 / (r1 + r2 + r3))).b
        * (mixLab3 l1 l2 l3 (r1 / (r1 + r2 + r3)) (r2 / (r1 + r2 + r3))
          (r3 / (r1 + r2 + r3))).b
    · simp only [scaleChroma, if_pos hc]
      nlinarith [ht1, hf2, hc.le,
        mul_nonneg (sub_nonneg.2 ht1)
          (by linarith : (0:ℚ) ≤ ternaryDullingFactor dE p1 p2 p3 l1 l2 l3 + 1),
        mul_self_nonneg (mixLab3 l1 l2 l3 (r1 / (r1 + r2 + r3))
          (r2 / (r1 + r2 + r3)) (r3 / (r1 + r2 + r3))).a,
        mul_self_nonneg (mixLab3 l1 l2 l3 (r1 / (r1 + r2 + r3))
          (r2 / (r1 + r2 + r3)) (r3 / (r1 + r2 + r3))).b]
    · simp only [scaleChroma, if_neg hc]
      exact le_rfl

end Chiaroscuro

namespace Chiaroscuro

/-- Witness for C7 at the opaque/transparent fixture pair. -/
theorem C7_chroma_witness :
    binaryDullingFactor dEuclid1 cpOpaque cpTransparent ⟨50, 10, 0⟩
      ⟨50, 30, 0⟩ ≤ 1 :=
  (C7_chroma dEuclid1 cpOpaque cpTransparent cpOpaque ⟨50, 10, 0⟩
    ⟨50, 30, 0⟩ ⟨50, 10, 0⟩ 1 1 1 1 dEuclid1_nonneg rfl rfl rfl).1

/-- C7 counterexample: for two extreme transparent paints (ΔE = 1000) the
dulling factor is −13/8, and the squared chroma of the estimated mix,
(−812.5)², strictly exceeds the squared linear-average chroma, 500². -/
theorem C7_counterexample :
    (mixLab2 ⟨0, 0, 1000⟩ ⟨0, 0, 0⟩ (1/2)).a ^ 2
        + (mixLab2 ⟨0, 0, 1000⟩ ⟨0, 0, 0⟩ (1/2)).b ^ 2
      < (estimateMixedColor dEuclid1 exPaint1 exPaint2 (1/2)).a ^ 2
        + (estimateMixedColor dEuclid1 exPaint1 exPaint2 (1/2)).b ^ 2 := by
  norm_num [estimateMixedColor, exPaint1, exPaint2, mixLab2, scaleChroma,
    binaryDullingFactor, dEuclid1, opacityToNumeric, abs_of_nonneg,
    abs_of_nonpos]

end Chiaroscuro

namespace Chiaroscuro

/-- C1 corrected: `deltaEToPercentage` is the clamped linear map with the
claimed properties and scores all three passes of `findOptimalPaintMixture`
— but it is *not* the formula used by `findPaintMixtures` (see the
counterexample). -/
theorem C1_formula :
    (∀ d e : ℚ, d ≤ e → deltaEToPercentage e ≤ deltaEToPercentage d)
    ∧ deltaEToPercentage 0 = 100
    ∧ (∀ d : ℚ, 20 ≤ d → deltaEToPercentage d = 0)
    ∧ (∀ d : ℚ, 0 ≤ deltaEToPercentage d ∧ deltaEToPercentage d ≤ 100)
    ∧ (∀ d : ℚ, 0 ≤ d → d ≤ 20 → deltaEToPercentage d = 100 - d * 5)
    ∧ (∀ (dE : LAB → LAB → ℚ) (t : LAB) (ps : List Paint) (mc : Nat),
        ∀ r ∈ findOptimalPaintMixture dE (some t) (some ps) mc,
          ScoredBy dE t r) := by
  refine ⟨?_, ?_, ?_, ?_, ?_, ?_⟩
  · intro d e h
    unfold deltaEToPercentage
    exact max_le_max le_rfl (min_le_min le_rfl (by linarith))
  · norm_num [deltaEToPercentage]
  · intro d h
    unfold deltaEToPercentage
    rw [min_eq_right (by linarith), max_eq_left (by linarith)]
  · intro d
    unfold deltaEToPercentage
    exact ⟨le_max_left 0 _, max_le (by norm_num) (min_le_left _ _)⟩
  · intro d h0 h20
    unfold deltaEToPercentage
    rw [min_eq_right (by linarith), max_eq_right (by linarith)]
  · intro dE t ps mc
    exact findOptimalPaintMixture_mem dE t ps mc _
      (fun r h => (findSinglePaintMatches_mem dE t ps r h).2.2)
      (fun r h => (findBinaryMixes_mem dE t ps r h).2.2)
      (fun r h => (findTernaryMixes_mem dE t ps r h).2.2)

/-- Witness for C1 at concrete inputs. -/
theorem C1_formula_witness :
    deltaEToPercentage 7 ≤ deltaEToPercentage 5
    ∧ deltaEToPercentage 25 = 0
    ∧ deltaEToPercentage 3 = 100 - 3 * 5
    ∧ ScoredBy dEuclid1 c2target (c2binr grayA grayC (1/2) 100 50) :=
  ⟨C1_formula.1 5 7 (by norm_num), C1_formula.2.2.1 25 (by norm_num),
   C1_formula.2.2.2.2.1 3 (by norm_num) (by norm_num),
   C1_formula.2.2.2.2.2 dEuclid1 c2target c2cat 3 _
     (by rw [c2_final_eval]; simp)⟩

/-- C1 counterexample: at ΔE = 20, `deltaEToPercentage` yields 0, but the
single-paint scoring of `findPaintMixtures` (distance 20, squared 400)
reports a 60% match — the two moduleses do not share one formula. -/
theorem C1_counterexample :
    deltaEToPercentage 20 = 0
    ∧ pcSingleRecipes ⟨50, 0, 0⟩ [grayA]
        = [⟨[⟨grayA, 1⟩], Score.dist 400, some ⟨30, 0, 0⟩, none⟩]
    ∧ (Score.dist 400).toReal = 60
    ∧ dEuclid1 ⟨50, 0, 0⟩ ⟨30, 0, 0⟩ = 20
    ∧ (60 : ℝ) ≠ 0 := by
  refine ⟨by norm_num [deltaEToPercentage], ?_, ?_,
    by norm_num [dEuclid1, abs_of_nonneg, abs_of_nonpos], by norm_num⟩
  · have hd : dist2 (⟨30, 0, 0⟩ : LAB) ⟨50, 0, 0⟩ = 400 := by
      norm_num [dist2]
    have hg : Score.gtB (Score.dist 400) (Score.const 50) = true := by
      norm_num [Score.gtB, Score.leB, max_def]
    simp [pcSingleRecipes, grayA, hd, hg]
  · rw [show (400 : ℚ) = 20 ^ 2 by norm_num,
      Score.toReal_dist_of_sq 20 (by norm_num) (by norm_num)]
    norm_num

/-- C8 corrected for the `colorUtils` search: descending sort, at most 5
recipes, and the fewer-components stable tie-break — the context-provider
`findPaintMixtures` violates descending order (see the counterexample). -/
theorem C8_ranking :
    (∀ (dE : LAB → LAB → ℚ) (tg : Option LAB) (c : Option (List Paint))
        (mc : Nat),
      (findOptimalPaintMixture dE tg c mc).Sorted recGE
      ∧ (findOptimalPaintMixture dE tg c mc).length ≤ 5)
    ∧ (∀ (dE : LAB → LAB → ℚ) (t : LAB) (ps : List Paint) (mc : Nat),
      (findOptimalPaintMixture dE (some t) (some ps) mc).Pairwise
        (fun x y => x.matchPercentage = y.matchPercentage →
          x.paints.length ≤ y.paints.length)) :=
  ⟨fun dE tg c mc => ⟨findOptimalPaintMixture_sorted dE tg c mc,
    findOptimalPaintMixture_length_le dE tg c mc⟩,
   findOptimalPaintMixture_tiebreak⟩

/-- C8 counterexample: for a dark target, `findPaintMixtures` promotes the
chromatic-black recipe (real score 80) ahead of a strictly better
single-paint match (real score 96) — the returned list is not sorted by
match quality. -/
theorem C8_counterexample :
    findPaintMixtures dEuclid1 oracle0 c8cat c8target = [c8chrom, c8single]
    ∧ c8chrom.score.toReal = 80
    ∧ c8single.score.toReal = 96
    ∧ (80 : ℝ) < 96 := by
  refine ⟨c8_eval, ?_, ?_, by norm_num⟩
  · show (Score.dist 100).toReal = 80
    rw [show (100 : ℚ) = 10 ^ 2 by norm_num,
      Score.toReal_dist_of_sq 10 (by norm_num) (by norm_num)]
    norm_num
  · show (Score.dist 4).toReal = 96
    rw [show (4 : ℚ) = 2 ^ 2 by norm_num,
      Score.toReal_dist_of_sq 2 (by norm_num) (by norm_num)]
    norm_num

/-- C4 corrected: away from the near-perfect short-circuit the final list
has pairwise distinct paint-id *multisets*; identity of the unordered
id-*set* is not enough to be deduplicated (see the counterexample). -/
theorem C4_dedup (dE : LAB → LAB → ℚ) (target : LAB) (ps : List Paint)
    (mc : Nat)
    (hsc : ∀ r0, (findSinglePaintMatches dE target ps).head? = some r0 →
      r0.matchPercentage ≤ 98) :
    (findOptimalPaintMixture dE (some target) (some ps) mc).Pairwise
      (fun r s => idMultiset r ≠ idMultiset s) := by
  simp only [findOptimalPaintMixture]
  split
  · simp
  split
  · rename_i hcond
    exfalso
    revert hcond
    cases hh : (findSinglePaintMatches dE target ps).head? with
    | none => simp
    | some r0 =>
      intro hcond
      rw [decide_eq_true_eq] at hcond
      exact absurd (hsc r0 hh) (not_le.mpr hcond)
  · exact List.Pairwise.sublist (List.take_sublist 5 _)
      (removeRedundantRecipes_pairwise _)

/-- Witness for C4 on the three-gray catalog (best single scores 50 ≤ 98). -/
theorem C4_dedup_witness :
    (findOptimalPaintMixture dEuclid1 (some c2target) (some c2cat) 3).Pairwise
      (fun r s => idMultiset r ≠ idMultiset s) := by
  apply C4_dedup
  intro r0 h
  rw [c2_singles_eval, List.head?_cons, Option.some_inj] at h
  subst h
  norm_num [c2single]

/-- C4 counterexample: a single-white catalog returns both the one-paint
recipe and the degenerate white-white binary recipe; their paint-id *sets*
coincide, so the claimed set-based invariant fails. -/
theorem C4_counterexample :
    findOptimalPaintMixture dEuclid1 (some c4target) (some [wPaint])
      = [c4rec1, c4bin (1/10)]
    ∧ (c4rec1.paints.map fun c => c.paint.id).toFinset
      = ((c4bin (1/10)).paints.map fun c => c.paint.id).toFinset := by
  refine ⟨c4_pipeline_eval, ?_⟩
  simp [c4rec1, c4bin, wPaint]

end Chiaroscuro

namespace Chiaroscuro

theorem assignDescription_paints (M : MathOracle) (r : PCRecipe) :
    (assignDescription M r).paints = r.paints := by
  rw [assignDescription]
  split <;> rfl

theorem pcSingleRecipes_sum (t : LAB) (sorted : List Paint) :
    ∀ r ∈ pcSingleRecipes t sorted, pcSum r := by
  intro r hr
  simp only [pcSingleRecipes] at hr
  rcases List.mem_filterMap.mp hr with ⟨p, _, hp⟩
  split at hp
  · have h := Option.some.inj hp
    subst h
    norm_num [pcSum]
  · simp at hp

theorem pcDarkRecipes_sum (t : LAB) (temp : Temperature)
    (cb : ChromaticBlacks) (brand : List Paint) :
    ∀ r ∈ pcDarkRecipes t temp cb brand, pcSum r := by
  intro r hr
  simp only [pcDarkRecipes] at hr
  split at hr
  · split at hr
    · simp at hr
    · rcases List.mem_filterMap.mp hr with ⟨w, _, hw⟩
      split at hw
      · have h := Option.some.inj hw
        subst h
        simp only [pcSum, List.map_cons, List.map_nil, List.sum_cons,
          List.sum_nil]
        ring
      · simp at hw
  · simp at hr

theorem pcPairRecipes_sum (M : MathOracle) (t : LAB) (p1 p2 : Paint) :
    ∀ r ∈ pcPairRecipes M t p1 p2, pcSum r := by
  intro r hr
  simp only [pcPairRecipes] at hr
  split at hr
  · simp at hr
  · rcases List.mem_filterMap.mp hr with ⟨ratio, _, hratio⟩
    split at hratio
    · have h := Option.some.inj hratio
      subst h
      simp only [pcSum, List.map_cons, List.map_nil, List.sum_cons,
        List.sum_nil]
      ring
    · simp at hratio

theorem pcPairLoop_sum (M : MathOracle) (t : LAB) :
    ∀ (ps : List Paint), ∀ r ∈ pcPairLoop M t ps, pcSum r := by
  intro ps
  induction ps with
  | nil => simp [pcPairLoop]
  | cons p rest ih =>
    intro r hr
    simp only [pcPairLoop] at hr
    rcases List.mem_append.mp hr with h | h
    · rcases List.mem_flatten.mp h with ⟨l, hl, hrl⟩
      rcases List.mem_map.mp hl with ⟨p2, _, rfl⟩
      exact pcPairRecipes_sum M t p p2 r hrl
    · exact ih r h

theorem pcComplementRecipes_sum (M : MathOracle) (t : LAB)
    (brand : List Paint) :
    ∀ r ∈ pcComplementRecipes M t brand, pcSum r := by
  intro r hr
  simp only [pcComplementRecipes] at hr
  split at hr
  · simp at hr
  · split at hr
    · simp at hr
    · rcases List.mem_filterMap.mp hr with ⟨ratio, _, hratio⟩
      split at hratio
      · have h := Option.some.inj hratio
        subst h
        simp only [pcSum, List.map_cons, List.map_nil, List.sum_cons,
          List.sum_nil]
        ring
      · simp at hratio

theorem pcBrandRecipes_sum (M : MathOracle) (t : LAB) (temp : Temperature)
    (cb : ChromaticBlacks) (dark : Bool) (brand : List Paint) :
    ∀ r ∈ pcBrandRecipes M t temp cb dark brand, pcSum r := by
  intro r hr
  simp only [pcBrandRecipes] at hr
  split at hr
  · simp at hr
  · rcases List.mem_append.mp hr with h | h
    · rcases List.mem_append.mp h with h2 | h2
      · split at h2
        · exact pcDarkRecipes_sum t temp cb brand r h2
        · simp at h2
      · exact pcPairLoop_sum M t _ r h2
    · exact pcComplementRecipes_sum M t brand r h

theorem pcDedup_subset :
    ∀ (l : List PCRecipe) (seen : List (Multiset String))
      (acc : List PCRecipe), ∀ r ∈ pcDedup l seen acc, r ∈ acc ∨ r ∈ l := by
  intro l
  induction l with
  | nil =>
    intro seen acc r hr
    simp only [pcDedup] at hr
    exact Or.inl hr
  | cons x t ih =>
    intro seen acc r hr
    simp only [pcDedup] at hr
    split at hr
    · rcases ih _ _ r hr with h | h
      · exact Or.inl h
      · exact Or.inr (List.mem_cons_of_mem _ h)
    · split at hr
      · rcases List.mem_append.mp hr with h | h
        · exact Or.inl h
        · simp at h
          subst h
          exact Or.inr (List.mem_cons_self _ _)
      · rcases ih _ _ r hr with h | h
        · rcases List.mem_append.mp h with h2 | h2
          · exact Or.inl h2
          · simp at h2
            subst h2
            exact Or.inr (List.mem_cons_self _ _)
        · exact Or.inr (List.mem_cons_of_mem _ h)

end Chiaroscuro

namespace Chiaroscuro

theorem findPaintMixtures_sum (dE : LAB → LAB → ℚ) (M : MathOracle)
    (ps : List Paint) (t : LAB) :
    ∀ r ∈ findPaintMixtures dE M ps t, pcSum r := by
  intro r hr
  rw [findPaintMixtures] at hr
  split at hr
  · simp at hr
    subst hr
    norm_num [pcSum, fallbackRecipe]
  lift_lets at hr
  extract_lets paintsWithLab sortedPaints targetTemperature chromaticBlacks
    isDarkColor singleRecipes brandRecipes finalRecipes uniqueRecipes
    uniqueRecipes2 uniqueRecipes3 uniqueRecipes4 recipesWithDescriptions at hr
  split at hr
  · simp at hr
    subst hr
    norm_num [pcSum, fallbackRecipe]
  have hsingle : ∀ x ∈ singleRecipes, pcSum x := by
    unfold_let singleRecipes
    exact pcSingleRecipes_sum t sortedPaints
  have hbrand : ∀ x ∈ brandRecipes, pcSum x := by
    unfold_let brandRecipes
    intro x hx
    rcases List.mem_flatten.mp hx with ⟨l, hl, hxl⟩
    rcases List.mem_map.mp hl with ⟨bn, _, rfl⟩
    exact pcBrandRecipes_sum M t targetTemperature chromaticBlacks
      isDarkColor _ x hxl
  have hfinal : ∀ x ∈ finalRecipes, pcSum x := by
    unfold_let finalRecipes
    intro x hx
    rcases List.mem_append.mp ((List.mem_insertionSort pcGE).mp hx) with h | h
    · exact hsingle x h
    · exact hbrand x h
  have huniq : ∀ x ∈ uniqueRecipes, pcSum x := by
    unfold_let uniqueRecipes
    intro x hx
    rcases pcDedup_subset finalRecipes [] [] x hx with h | h
    · simp at h
    · exact hfinal x h
  have hu2 : ∀ x ∈ uniqueRecipes2, pcSum x := by
    unfold_let uniqueRecipes2
    intro x hx
    split at hx
    · revert hx
      cases hh : sortedPaints.head? with
      | none =>
        intro hx
        rcases List.mem_append.mp hx with h | h
        · exact huniq x h
        · simp at h
          subst h
          norm_num [pcSum, fallbackRecipe]
      | some bp =>
        intro hx
        rcases List.mem_append.mp hx with h | h
        · exact huniq x h
        · simp at h
          subst h
          norm_num [pcSum]
    · split at hx
      · rcases List.mem_append.mp hx with h | h
        · exact huniq x h
        · simp at h
          subst h
          norm_num [pcSum, fallbackRecipe]
      · exact huniq x hx
  have hu3 : ∀ x ∈ uniqueRecipes3, pcSum x := by
    unfold_let uniqueRecipes3
    intro x hx
    split at hx
    · revert hx
      cases hh : sortedPaints.head? with
      | none => exact hu2 x
      | some bp =>
        intro hx
        rcases List.mem_append.mp hx with h | h
        · exact hu2 x h
        · simp at h
          subst h
          norm_num [pcSum]
    · exact hu2 x hx
  have hu4 : ∀ x ∈ uniqueRecipes4, pcSum x := by
    unfold_let uniqueRecipes4
    intro x hx
    split at hx
    · revert hx
      cases h1 : paintsWithLab.find? fun p =>
          jsIncl (jsLower p.name) "ultramarine"
            || jsIncl (jsLower p.name) "phthalo" with
      | none => exact hu3 x
      | some u =>
        cases h2 : paintsWithLab.find? fun p =>
            jsIncl (jsLower p.name) "umber"
              || jsIncl (jsLower p.name) "crimson" with
        | none => exact hu3 x
        | some c =>
          intro hx
          rcases List.mem_append.mp hx with h | h
          · exact hu3 x h
          · simp at h
            subst h
            norm_num [pcSum]
    · exact hu3 x hx
  have hr1 : r ∈ recipesWithDescriptions :=
    (List.mem_insertionSort pcFinalLE).mp (List.take_subset 5 _ hr)
  unfold_let recipesWithDescriptions at hr1
  rcases List.mem_map.mp hr1 with ⟨r0, hr0, rfl⟩
  have hps : (assignDescription M r0).paints = r0.paints :=
    assignDescription_paints M r0
  rw [pcSum, hps]
  exact hu4 r0 hr0

/-- C10: every recipe of the `colorUtils` search, every harmonious-pair
recipe, and every recipe the context provider `findPaintMixtures` returns
(single-paint, chromatic-black + white, complement-blend, dark-target
fix-ups and the fallback included) has component proportions summing to
exactly 1. -/
theorem C10_proportions :
    (∀ (dE : LAB → LAB → ℚ) (t : LAB) (ps : List Paint) (mc : Nat),
      ∀ r ∈ findOptimalPaintMixture dE (some t) (some ps) mc, PropSum1 r)
    ∧ (∀ (M : MathOracle) (t : LAB) (p1 p2 : Paint),
      ∀ r ∈ pcPairRecipes M t p1 p2,
        (r.paints.map fun c => c.proportion).sum = 1)
    ∧ (∀ (dE : LAB → LAB → ℚ) (M : MathOracle) (ps : List Paint) (t : LAB),
      ∀ r ∈ findPaintMixtures dE M ps t,
        (r.paints.map fun c => c.proportion).sum = 1) := by
  refine ⟨?_, ?_, ?_⟩
  · intro dE t ps mc
    exact findOptimalPaintMixture_mem dE t ps mc _
      (fun r h => (findSinglePaintMatches_mem dE t ps r h).2.1)
      (fun r h => (findBinaryMixes_mem dE t ps r h).2.1)
      (fun r h => (findTernaryMixes_mem dE t ps r h).2.1)
  · intro M t p1 p2
    exact pcPairRecipes_sum M t p1 p2
  · intro dE M ps t
    exact findPaintMixtures_sum dE M ps t

/-- Witness for C10: a returned binary recipe of the three-gray catalog,
and the fallback recipe returned for an empty catalog. -/
theorem C10_proportions_witness :
    PropSum1 (c2binr grayA grayC (1/2) 100 50)
    ∧ (fallbackRecipe.paints.map fun c => c.proportion).sum = 1 :=
  ⟨C10_proportions.1 dEuclid1 c2target c2cat 3 _ (by rw [c2_final_eval]; simp),
   C10_proportions.2.2 dEuclid1 oracle0 [] c2target fallbackRecipe
     (by rw [findPaintMixtures]; simp)⟩

end Chiaroscuro
